import Mathlib

/-!
# Verification of the alphy_chat signaling server and client quality loop

Shallow embedding of the state-and-control logic of `src/server.js`,
`src/public/js/room.js` and `src/public/js/main.js`:

* the room registry and socket.io signaling handlers of `server.js`
  (join-room / leave-room / disconnect / POST `/api/rooms` / the deferred
  per-leave cleanup timer / the 30-minute stale-room sweep), modelled as a
  command-indexed step function over an explicit server state;
* the adaptive-quality controller of `room.js` (`adaptQuality`,
  `collectStats`) modelled over exact rationals;
* the room-code extraction of `main.js` (`extractRoomId`), with the
  JavaScript global-regex matching of `/(\d{4})(?!\d)/g` made explicit.

Timers are modelled as scheduled entries that may fire at any point at or
after their deadline, and the periodic sweep as a step that may run at any
multiple of its 30-minute period; this over-approximates the event loop's
actual schedule, so invariants proved over all traces cover the real
schedules, and concrete traces exhibit behaviours the real schedule
produces.
-/

namespace AlphyChat

/-- A socket.io connection identity (`socket.id`). -/
abbrev SocketId := Nat

/-- A room code: the string key of the `rooms` map in `server.js`. -/
abbrev RoomId := String

/-- `server.js` line 39: `rooms = new Map(); // roomId -> { participants: Set<socketId>, createdAt: Date }`.
JavaScript `Set` insertion order is irrelevant to every property considered
here, so participants are a `Finset`. -/
structure Room where
  participants : Finset SocketId
  createdAt : Nat
  deriving DecidableEq

/-- `MAX_PARTICIPANTS = 4` (`server.js` line 33). -/
def MAX_PARTICIPANTS : Nat := 4

/-- Events the server emits, tagged with the receiving connection.
`socket.emit` produces one entry for the socket itself; `socket.to(roomId).emit`
produces one entry per other member of the socket.io room (which this server
keeps identical to `room.participants` via the paired
`participants.add`/`socket.join` and `participants.delete`/`socket.leave` calls). -/
inductive Emit where
  | roomFull (dst : SocketId)
  | roomJoined (dst : SocketId) (participants : List SocketId)
  | participantJoined (dst : SocketId) (socketId : SocketId)
  | participantLeft (dst : SocketId) (socketId : SocketId)
  deriving DecidableEq

/-- The whole mutable state of `server.js`:
* `rooms`: the registry map;
* `currentRoom`: each connection's `currentRoom` closure variable;
* `timers`: pending `setTimeout` cleanups scheduled by `leaveRoom`
  (room code, absolute fire time);
* `time`: the current value of `Date.now()`. -/
structure ServerState where
  rooms : RoomId → Option Room
  currentRoom : SocketId → Option RoomId
  timers : List (RoomId × Nat)
  time : Nat

/-- Fresh server process: no rooms, no bindings, no pending timers. -/
def initState : ServerState :=
  { rooms := fun _ => none, currentRoom := fun _ => none, timers := [], time := 0 }

/-- `leaveRoom(sock, roomId)` (`server.js` lines 189-210): remove the socket
from the room's participant set, notify the remaining members, and if the
room became empty schedule a deferred deletion 300000 ms (5 min) later.
Does not touch `currentRoom` (the callers reset it). -/
def leaveRoom (st : ServerState) (sock : SocketId) (roomId : RoomId) :
    ServerState × List Emit :=
  match st.rooms roomId with
  | none => (st, [])
  | some room =>
      let participants := room.participants.erase sock
      let room' : Room := { room with participants := participants }
      let st' : ServerState :=
        { st with rooms := Function.update st.rooms roomId (some room') }
      let emits := (participants.sort (· ≤ ·)).map (fun id => Emit.participantLeft id sock)
      if participants.card = 0 then
        ({ st' with timers := (roomId, st.time + 300000) :: st'.timers }, emits)
      else
        (st', emits)

/-- The `join-room` handler (`server.js` lines 126-160): create the room
on the fly if absent, reject with `room-full` at capacity, otherwise leave
any previous room, bind, insert, reply `room-joined` with the other members,
and notify them with `participant-joined`.
JavaScript aliasing note: the handler's `room` variable aliases the map
entry, so after the `leaveRoom` call (which may mutate this same object when
rejoining the current room) the participant set is re-read from the map. -/
def joinRoom (st : ServerState) (sock : SocketId) (roomId : RoomId) :
    ServerState × List Emit :=
  -- if (!rooms.has(roomId)) rooms.set(roomId, { participants: new Set(), createdAt: Date.now() });
  let st0 : ServerState :=
    match st.rooms roomId with
    | some _ => st
    | none =>
        { st with rooms := (Function.update st.rooms roomId
            (some { participants := ∅, createdAt := st.time })) }
  -- const room = rooms.get(roomId);
  match st0.rooms roomId with
  | none => (st0, [])  -- unreachable: the room was ensured just above
  | some room =>
      if MAX_PARTICIPANTS ≤ room.participants.card then
        -- socket.emit('room-full'); return;
        (st0, [Emit.roomFull sock])
      else
        -- if (currentRoom) leaveRoom(socket, currentRoom);
        let res1 : ServerState × List Emit :=
          match st0.currentRoom sock with
          | some prev => leaveRoom st0 sock prev
          | none => (st0, [])
        let st1 := res1.1
        -- currentRoom = roomId; room.participants.add(socket.id); socket.join(roomId);
        let roomNow : Room :=
          match st1.rooms roomId with
          | some r => r
          | none => room  -- unreachable: leaveRoom never deletes a registry entry
        let participants := insert sock roomNow.participants
        let st2 : ServerState :=
          { st1 with
              rooms := (Function.update st1.rooms roomId
                (some { roomNow with participants := participants })),
              currentRoom := Function.update st1.currentRoom sock (some roomId) }
        -- const existingParticipants = [...room.participants].filter(id => id !== socket.id);
        let existing := (participants.sort (· ≤ ·)).filter (fun id => id ≠ sock)
        (st2, res1.2
              ++ [Emit.roomJoined sock existing]
              ++ existing.map (fun id => Emit.participantJoined id sock))

/-- The `leave-room` and `disconnect` handlers (`server.js` lines 175-187):
if bound, leave the bound room and clear the binding. -/
def leaveRoomEvent (st : ServerState) (sock : SocketId) : ServerState × List Emit :=
  match st.currentRoom sock with
  | some roomId =>
      let res := leaveRoom st sock roomId
      ({ res.1 with currentRoom := Function.update res.1.currentRoom sock none }, res.2)
  | none => (st, [])

/-- Body of the deferred cleanup scheduled by `leaveRoom` (`server.js`
lines 203-208): re-check emptiness at fire time, delete only if still empty. -/
def fireCleanup (st : ServerState) (roomId : RoomId) : ServerState :=
  match st.rooms roomId with
  | some r =>
      if r.participants.card = 0 then
        { st with rooms := Function.update st.rooms roomId none }
      else st
  | none => st

/-- One run of the 30-minute stale-room sweep (`server.js` lines 42-49):
delete every room that is empty and whose `createdAt` lies more than
3600000 ms (1 hour) in the past. -/
def staleSweep (st : ServerState) : ServerState :=
  { st with rooms := fun id =>
      match st.rooms id with
      | some room =>
          if room.participants.card = 0 ∧ 3600000 < st.time - room.createdAt then
            none
          else some room
      | none => none }

/-- The room-id drawing loop of `POST /api/rooms` (`server.js` lines 59-64):
`do { roomId = generateRoomId(); attempts++ } while (rooms.has(roomId) && attempts < 20)`.
`draws k` is the `k`-th output of `generateRoomId`; the loop starts at `k = 0`
with `attempts = k + 1` after drawing. -/
def pickRoomId (rooms : RoomId → Option Room) (draws : Nat → RoomId) (k : Nat) : RoomId :=
  if (rooms (draws k)).isSome ∧ k + 1 < 20 then pickRoomId rooms draws (k + 1)
  else draws k
  termination_by 20 - k
  decreasing_by omega

/-- `POST /api/rooms` (`server.js` lines 58-67): draw a code (retrying on
collision up to 20 attempts), then unconditionally `rooms.set` a fresh empty
room under it, and respond with the code. -/
def createRoomOp (st : ServerState) (draws : Nat → RoomId) : ServerState × RoomId :=
  let roomId := pickRoomId st.rooms draws 0
  ({ st with rooms := (Function.update st.rooms roomId
      (some { participants := ∅, createdAt := st.time })) }, roomId)

/-- The inputs the server reacts to: client signaling events, the REST
room-creation endpoint (with the generator's output stream), timer firings,
sweep ticks, and the passage of time. -/
inductive Cmd where
  | join (sock : SocketId) (roomId : RoomId)
  | leaveCmd (sock : SocketId)
  | disconnect (sock : SocketId)
  | create (draws : Nat → RoomId)
  | fire (roomId : RoomId) (t : Nat)
  | sweep
  | tick (dt : Nat)

/-- One server step. A `fire` is only effective for a pending timer whose
deadline has passed; a `sweep` only at a multiple of the 1800000 ms period. -/
def execCmd (st : ServerState) : Cmd → ServerState × List Emit
  | .join sock roomId => joinRoom st sock roomId
  | .leaveCmd sock => leaveRoomEvent st sock
  | .disconnect sock => leaveRoomEvent st sock
  | .create draws => ((createRoomOp st draws).1, [])
  | .fire roomId t =>
      if (roomId, t) ∈ st.timers ∧ t ≤ st.time then
        (fireCleanup { st with timers := st.timers.erase (roomId, t) } roomId, [])
      else (st, [])
  | .sweep => if st.time % 1800000 = 0 then (staleSweep st, []) else (st, [])
  | .tick dt => ({ st with time := st.time + dt }, [])

/-- Run a sequence of commands from a state, keeping only the state. -/
def execList (st : ServerState) (cmds : List Cmd) : ServerState :=
  cmds.foldl (fun s c => (execCmd s c).1) st

/-- A server state is reachable when some input sequence produces it from a
fresh process. -/
def Reachable (st : ServerState) : Prop :=
  ∃ cmds : List Cmd, execList initState cmds = st

/-! ## Client quality controller (`src/public/js/room.js`) -/

/-- One entry of `QUALITY_TIERS` (`room.js` lines 5-11). Frame rates are kept
as exact rationals; the 60%/85% hysteresis thresholds are modelled as the
exact fractions 3/5 and 17/20 (the floating-point products `30*0.6`, `30*0.85`,
`24*0.85`, `20*0.6`, `20*0.85` all round to the exact values, and `24*0.6`
differs from 14.4 only below any observable fps granularity). -/
structure Tier where
  width : Nat
  height : Nat
  frameRate : ℚ
  maxBitrate : Nat
  label : String
  deriving DecidableEq

/-- `QUALITY_TIERS` (`room.js` lines 5-11), highest quality first. -/
def QUALITY_TIERS : List Tier :=
  [ { width := 1920, height := 1080, frameRate := 30, maxBitrate := 10000000, label := "1080p+" },
    { width := 1920, height := 1080, frameRate := 30, maxBitrate := 5000000, label := "1080p" },
    { width := 1280, height := 720, frameRate := 30, maxBitrate := 2500000, label := "720p" },
    { width := 960, height := 540, frameRate := 24, maxBitrate := 1200000, label := "540p" },
    { width := 640, height := 360, frameRate := 20, maxBitrate := 600000, label := "360p" } ]

/-- Placeholder for an out-of-range `QUALITY_TIERS[i]` access. The controller
keeps `currentTierIndex` inside `[0, QUALITY_TIERS.length)`, so this value is
never read on the paths modelled here. -/
def defaultTier : Tier :=
  { width := 0, height := 0, frameRate := 0, maxBitrate := 0, label := "" }

/-- The adaptive-quality state of a `RoomManager` (`room.js` lines 34-37):
current tier index and the two hysteresis counters. -/
structure QState where
  currentTierIndex : Nat
  degradeCount : Nat
  improveCount : Nat
  deriving DecidableEq

/-- `RoomManager.adaptQuality(actualFps)` (`room.js` lines 437-473).
`peersSize` is `this.peers.size`. The capture-constraint and bitrate-cap
side effects of `applyCurrentTier` touch only the media subsystem, not this
state, and are omitted. -/
def adaptQuality (peersSize : Nat) (q : QState) (actualFps : ℚ) : QState :=
  if peersSize = 0 then q
  else
    let tier := QUALITY_TIERS.getD q.currentTierIndex defaultTier
    let targetFps : ℚ := tier.frameRate
    -- if (actualFps > 0 && actualFps < targetFps * 0.6) ... else if (actualFps >= targetFps * 0.85) ... else ...
    let q1 : QState :=
      if 0 < actualFps ∧ actualFps < targetFps * (3 / 5) then
        { q with degradeCount := q.degradeCount + 1, improveCount := 0 }
      else if targetFps * (17 / 20) ≤ actualFps then
        { q with improveCount := q.improveCount + 1, degradeCount := 0 }
      else
        { q with degradeCount := 0, improveCount := 0 }
    -- if (this.degradeCount >= 3 && this.currentTierIndex < QUALITY_TIERS.length - 1) ...
    let q2 : QState :=
      if 3 ≤ q1.degradeCount ∧ q1.currentTierIndex < QUALITY_TIERS.length - 1 then
        { currentTierIndex := q1.currentTierIndex + 1, degradeCount := 0, improveCount := 0 }
      else q1
    -- if (this.improveCount >= 8 && this.currentTierIndex > 0) ...
    if 8 ≤ q2.improveCount ∧ 0 < q2.currentTierIndex then
      { currentTierIndex := q2.currentTierIndex - 1, degradeCount := 0, improveCount := 0 }
    else q2

/-- Feed a sequence of fps samples through `adaptQuality`, one 2-second
stats tick per sample. -/
def runAdapt (peersSize : Nat) (q : QState) (samples : List ℚ) : QState :=
  samples.foldl (adaptQuality peersSize) q

/-- One entry of an `RTCStatsReport` as read by `collectStats`
(`room.js` lines 494-515). `framesPerSecond` is optional in WebRTC stats;
`collectStats` defaults it with `|| 0`. -/
structure StatsReport where
  type : String
  kind : String
  framesPerSecond : Option ℚ
  bytesSent : Nat
  timestamp : ℚ
  frameWidth : Option Nat
  frameHeight : Option Nat
  deriving DecidableEq

/-- The report filter of `collectStats`:
`report.type === 'outbound-rtp' && report.kind === 'video'`. -/
def isOutboundVideo (r : StatsReport) : Bool :=
  r.type == "outbound-rtp" && r.kind == "video"

/-- The effect of one report on the running `minFps` of
`RoomManager.collectStats` (`room.js` lines 496-503): for an outbound video
report take `fps = report.framesPerSecond || 0`, then
`if (fps > 0) minFps = Math.min(minFps, fps)`. `none` stands for the initial
`Infinity`. -/
def minFpsStep (acc : Option ℚ) (r : StatsReport) : Option ℚ :=
  if isOutboundVideo r then
    let fps := r.framesPerSecond.getD 0
    if 0 < fps then
      some (match acc with | none => fps | some m => min m fps)
    else acc
  else acc

/-- The `minFps` accumulation of `RoomManager.collectStats` (`room.js`
lines 487-520): fold `minFpsStep` over every report of every peer's stats
dump. The resolution/bitrate bookkeeping in the same loop feeds only the
on-screen stats display, never the quality decision, and is omitted. -/
def collectMinFps (peerReports : List (List StatsReport)) : Option ℚ :=
  peerReports.foldl (fun acc reports => reports.foldl minFpsStep acc) none

/-- The quality-control effect of one `collectStats` tick (`room.js`
lines 481-535): bail out with no peers, and call `adaptQuality(minFps)`
only when `minFps < Infinity`. -/
def collectStatsQuality (peerReports : List (List StatsReport)) (q : QState) : QState :=
  if peerReports.length = 0 then q
  else
    match collectMinFps peerReports with
    | some m => adaptQuality peerReports.length q m
    | none => q

/-- Modelled from the claim's words, for comparison with `collectMinFps`:
the fps values observed across all peer links' outbound video stats
(with the same `|| 0` defaulting). -/
def outVideoFpsValues (peerReports : List (List StatsReport)) : List ℚ :=
  (peerReports.flatten.filter isOutboundVideo).map (fun r => r.framesPerSecond.getD 0)

/-! ## Client room-code extraction (`src/public/js/main.js`) -/

/-- The characters `String.prototype.trim` strips (JavaScript WhiteSpace and
LineTerminator). -/
def jsWhitespace (c : Char) : Bool :=
  c = ' ' || c = '\t' || c = '\n' || c = '\r' || c = '\x0b' || c = '\x0c' ||
  c = '\u00A0' || c = '\uFEFF' || c = '\u2028' || c = '\u2029'

/-- `input.trim()`. -/
def jsTrim (s : List Char) : List Char :=
  ((s.dropWhile jsWhitespace).reverse.dropWhile jsWhitespace).reverse

/-- Whether the regex `/(\d{4})(?!\d)/` matches at the head of `s`:
four decimal digits not immediately followed by a fifth. Returns the
matched digits. -/
def fourDigitWindow : List Char → Option (List Char)
  | a :: b :: c :: d :: rest =>
      if a.isDigit && b.isDigit && c.isDigit && d.isDigit &&
          (match rest with | [] => true | e :: _ => !e.isDigit) then
        some [a, b, c, d]
      else none
  | _ => none

/-- `trimmed.match(/(\d{4})(?!\d)/g)`: JavaScript global matching — scan left
to right, at each position try the pattern; on a match record it and resume
after the matched text (4 characters), else advance one character. -/
def regexGlobalMatches : List Char → List (List Char)
  | [] => []
  | x :: rest =>
      match fourDigitWindow (x :: rest) with
      | some w => w :: regexGlobalMatches ((x :: rest).drop 4)
      | none => regexGlobalMatches rest
  termination_by s => s.length
  decreasing_by
    · simp only [List.length_drop, List.length_cons]; omega
    · simp

/-- `extractRoomId(input)` (`main.js` lines 41-47): trim, return `null` on an
empty result or no match, else the last match. -/
def extractRoomId (s : List Char) : Option (List Char) :=
  let trimmed := jsTrim s
  if trimmed.isEmpty then none
  else (regexGlobalMatches trimmed).getLast?

/-- Modelled from the claim's words, for comparison with `extractRoomId`:
every run of exactly 4 digits not immediately followed by a further digit,
in order of position — one candidate per starting position. -/
def specAllWindows : List Char → List (List Char)
  | [] => []
  | x :: rest =>
      (match fourDigitWindow (x :: rest) with | some w => [w] | none => []) ++
        specAllWindows rest

/-- Modelled from the claim's words: the last run of exactly 4 digits not
immediately followed by a further digit in the trimmed input, if any. -/
def specLastRun (s : List Char) : Option (List Char) :=
  (specAllWindows (jsTrim s)).getLast?

/-! ## Auxiliary predicates used by the claims -/

/-- A 4-digit numeric room code. -/
def isFourDigitCode (s : String) : Bool :=
  s.length == 4 && s.data.all Char.isDigit

/-- Server inputs that respect the documented protocol: signaling `join-room`
carries a 4-digit code, and the generator draws 4-digit codes
(`customAlphabet('0123456789', 4)` can produce nothing else). -/
def GoodCmd : Cmd → Prop
  | .join _ roomId => isFourDigitCode roomId = true
  | .create draws => ∀ i, isFourDigitCode (draws i) = true
  | _ => True

/-- Every key present in the registry is a 4-digit numeric code. -/
def KeysFourDigit (st : ServerState) : Prop :=
  ∀ code room, st.rooms code = some room → isFourDigitCode code = true

/-- Every room's participant set respects the capacity bound. -/
def SizeInv (st : ServerState) : Prop :=
  ∀ code room, st.rooms code = some room → room.participants.card ≤ MAX_PARTICIPANTS

/-- The members of a room other than `sock` (empty if the room is absent). -/
def membersExcept (st : ServerState) (roomId : RoomId) (sock : SocketId) : Finset SocketId :=
  match st.rooms roomId with
  | some r => r.participants.erase sock
  | none => ∅

/-- Recognizes `room-joined` events. -/
def isRoomJoined : Emit → Bool
  | .roomJoined _ _ => true
  | _ => false

/-! ## Basic lemmas about the server operations -/

theorem leaveRoom_fst_rooms (st : ServerState) (sock : SocketId) (roomId : RoomId) :
    (leaveRoom st sock roomId).1.rooms =
      match st.rooms roomId with
      | none => st.rooms
      | some room =>
          Function.update st.rooms roomId
            (some { room with participants := room.participants.erase sock }) := by
  cases h : st.rooms roomId <;> simp only [leaveRoom, h] <;> try rfl
  split <;> rfl

theorem leaveRoom_fst_currentRoom (st : ServerState) (sock : SocketId) (roomId : RoomId) :
    (leaveRoom st sock roomId).1.currentRoom = st.currentRoom := by
  cases h : st.rooms roomId <;> simp only [leaveRoom, h] <;> try rfl
  split <;> rfl

theorem leaveRoom_fst_time (st : ServerState) (sock : SocketId) (roomId : RoomId) :
    (leaveRoom st sock roomId).1.time = st.time := by
  cases h : st.rooms roomId <;> simp only [leaveRoom, h] <;> try rfl
  split <;> rfl

theorem leaveRoom_snd (st : ServerState) (sock : SocketId) (roomId : RoomId) :
    (leaveRoom st sock roomId).2 =
      match st.rooms roomId with
      | none => []
      | some room =>
          ((room.participants.erase sock).sort (· ≤ ·)).map
            (fun id => Emit.participantLeft id sock) := by
  cases h : st.rooms roomId <;> simp only [leaveRoom, h] <;> try rfl
  split <;> rfl

theorem leaveRoom_rooms_isSome (st : ServerState) (sock : SocketId) (roomId : RoomId)
    (code : RoomId) (h : (st.rooms code).isSome) :
    ((leaveRoom st sock roomId).1.rooms code).isSome := by
  rw [leaveRoom_fst_rooms]
  cases hr : st.rooms roomId
  · exact h
  · by_cases hc : code = roomId
    · subst hc; simp [Function.update_same]
    · simpa [Function.update_noteq hc] using h

/-- The `join-room` handler when the target room exists at capacity:
computes to `room-full` with no state change. -/
theorem joinRoom_full_eq (st : ServerState) (sock : SocketId) (roomId : RoomId) (room : Room)
    (hr : st.rooms roomId = some room)
    (h4 : MAX_PARTICIPANTS ≤ room.participants.card) :
    joinRoom st sock roomId = (st, [Emit.roomFull sock]) := by
  simp only [joinRoom, hr, if_pos h4]

/-- The `join-room` handler when the target room exists below capacity:
computes to the leave-then-bind-then-insert continuation. -/
theorem joinRoom_success_eq (st : ServerState) (sock : SocketId) (roomId : RoomId) (room : Room)
    (hr : st.rooms roomId = some room)
    (h4 : room.participants.card < MAX_PARTICIPANTS) :
    joinRoom st sock roomId =
      (let res1 : ServerState × List Emit :=
          match st.currentRoom sock with
          | some prev => leaveRoom st sock prev
          | none => (st, []);
        let st1 := res1.1;
        let roomNow : Room :=
          match st1.rooms roomId with
          | some r => r
          | none => room;
        let participants := insert sock roomNow.participants;
        let st2 : ServerState :=
          { st1 with
              rooms := (Function.update st1.rooms roomId
                (some { roomNow with participants := participants })),
              currentRoom := Function.update st1.currentRoom sock (some roomId) };
        let existing := (participants.sort (· ≤ ·)).filter (fun id => id ≠ sock);
        (st2, res1.2
              ++ [Emit.roomJoined sock existing]
              ++ existing.map (fun id => Emit.participantJoined id sock))) := by
  simp only [joinRoom, hr, if_neg (not_le_of_lt h4)]

/-- The `join-room` handler when the target room is absent: the room is
created empty first, then the same continuation runs with the fresh room. -/
theorem joinRoom_create_eq (st : ServerState) (sock : SocketId) (roomId : RoomId)
    (hr : st.rooms roomId = none) :
    joinRoom st sock roomId =
      (let stC : ServerState :=
          { st with rooms := (Function.update st.rooms roomId
              (some { participants := ∅, createdAt := st.time })) };
        let res1 : ServerState × List Emit :=
          match st.currentRoom sock with
          | some prev => leaveRoom stC sock prev
          | none => (stC, []);
        let st1 := res1.1;
        let roomNow : Room :=
          match st1.rooms roomId with
          | some r => r
          | none => { participants := ∅, createdAt := st.time };
        let participants := insert sock roomNow.participants;
        let st2 : ServerState :=
          { st1 with
              rooms := (Function.update st1.rooms roomId
                (some { roomNow with participants := participants })),
              currentRoom := Function.update st1.currentRoom sock (some roomId) };
        let existing := (participants.sort (· ≤ ·)).filter (fun id => id ≠ sock);
        (st2, res1.2
              ++ [Emit.roomJoined sock existing]
              ++ existing.map (fun id => Emit.participantJoined id sock))) := by
  simp only [joinRoom, hr, Function.update_same]
  norm_num [MAX_PARTICIPANTS]

/-- After a `leaveRoom`, the target room of a pending join still has room
for one more member if it did before. -/
theorem leaveRoom_rooms_card_lt (st : ServerState) (sock' : SocketId) (prev roomId : RoomId)
    (room : Room) (hr : st.rooms roomId = some room)
    (h4 : room.participants.card < MAX_PARTICIPANTS) :
    ∀ r', (leaveRoom st sock' prev).1.rooms roomId = some r' →
      r'.participants.card < MAX_PARTICIPANTS := by
  intro r' hc
  rw [leaveRoom_fst_rooms] at hc
  cases hp : st.rooms prev with
  | none => simp only [hp] at hc; rw [hr] at hc; cases hc; exact h4
  | some rp =>
      simp only [hp] at hc
      by_cases hpe : roomId = prev
      · subst hpe
        rw [Function.update_same] at hc
        cases hc
        have hre : room = rp := by rw [hr] at hp; exact Option.some.inj hp
        subst hre
        exact lt_of_le_of_lt Finset.card_erase_le h4
      · rw [Function.update_noteq hpe] at hc
        rw [hr] at hc; cases hc; exact h4

theorem sizeInv_leaveRoom (st : ServerState) (sock : SocketId) (roomId : RoomId)
    (h : SizeInv st) : SizeInv (leaveRoom st sock roomId).1 := by
  intro code room' hc
  rw [leaveRoom_fst_rooms] at hc
  cases hr : st.rooms roomId with
  | none => simp only [hr] at hc; exact h _ _ hc
  | some room =>
      simp only [hr] at hc
      by_cases hcode : code = roomId
      · subst hcode
        rw [Function.update_same] at hc
        cases hc
        exact le_trans Finset.card_erase_le (h _ _ hr)
      · rw [Function.update_noteq hcode] at hc
        exact h _ _ hc

/-- The state built by the tail of a successful join (bind + insert)
satisfies the capacity invariant whenever the intermediate state does and
the target room (or its fallback) is below capacity. -/
theorem sizeInv_join_tail (st1 : ServerState) (sock : SocketId) (roomId : RoomId)
    (fallback : Room) (h1 : SizeInv st1)
    (hcard : ∀ r', st1.rooms roomId = some r' → r'.participants.card < MAX_PARTICIPANTS)
    (hfb : fallback.participants.card < MAX_PARTICIPANTS) :
    SizeInv
      { st1 with
          rooms := (Function.update st1.rooms roomId
            (some { (match st1.rooms roomId with | some r => r | none => fallback) with
                    participants :=
                      insert sock
                        (match st1.rooms roomId with
                          | some r => r
                          | none => fallback).participants })),
          currentRoom := Function.update st1.currentRoom sock (some roomId) } := by
  intro code room' hc
  simp only at hc
  by_cases hcode : code = roomId
  · subst hcode
    rw [Function.update_same] at hc
    cases hc
    have hnow :
        (match st1.rooms code with | some r => r | none => fallback).participants.card
          < MAX_PARTICIPANTS := by
      cases hx : st1.rooms code with
      | none => exact hfb
      | some r => exact hcard r hx
    exact le_trans (Finset.card_insert_le _ _) hnow
  · rw [Function.update_noteq hcode] at hc
    exact h1 _ _ hc

theorem sizeInv_joinRoom (st : ServerState) (sock : SocketId) (roomId : RoomId)
    (h : SizeInv st) : SizeInv (joinRoom st sock roomId).1 := by
  cases hr : st.rooms roomId with
  | some room =>
      by_cases h4 : MAX_PARTICIPANTS ≤ room.participants.card
      · rw [joinRoom_full_eq st sock roomId room hr h4]
        exact h
      · have h4' : room.participants.card < MAX_PARTICIPANTS := lt_of_not_le h4
        rw [joinRoom_success_eq st sock roomId room hr h4']
        cases hc : st.currentRoom sock with
        | none =>
            simp only [hc]
            exact sizeInv_join_tail st sock roomId room h
              (fun r' hx => by rw [hr] at hx; cases hx; exact h4') h4'
        | some prev =>
            simp only [hc]
            exact sizeInv_join_tail _ sock roomId room
              (sizeInv_leaveRoom st sock prev h)
              (leaveRoom_rooms_card_lt st sock prev roomId room hr h4') h4'
  | none =>
      rw [joinRoom_create_eq st sock roomId hr]
      have hC : SizeInv
          { st with rooms := (Function.update st.rooms roomId
              (some { participants := ∅, createdAt := st.time })) } := by
        intro code room' hcc
        simp only at hcc
        by_cases hcode : code = roomId
        · subst hcode
          rw [Function.update_same] at hcc
          cases hcc
          simp [MAX_PARTICIPANTS]
        · rw [Function.update_noteq hcode] at hcc
          exact h _ _ hcc
      have hfresh :
          (Function.update st.rooms roomId
              (some { participants := ∅, createdAt := st.time })) roomId
            = some { participants := ∅, createdAt := st.time } := Function.update_same _ _ _
      cases hc : st.currentRoom sock with
      | none =>
          simp only [hc]
          exact sizeInv_join_tail _ sock roomId _ hC
            (fun r' hx => by
              simp only at hx
              rw [hfresh] at hx; cases hx; simp [MAX_PARTICIPANTS])
            (by simp [MAX_PARTICIPANTS])
      | some prev =>
          simp only [hc]
          exact sizeInv_join_tail _ sock roomId _
            (sizeInv_leaveRoom _ sock prev hC)
            (leaveRoom_rooms_card_lt _ sock prev roomId _ hfresh
              (by simp [MAX_PARTICIPANTS]))
            (by simp [MAX_PARTICIPANTS])

theorem sizeInv_leaveRoomEvent (st : ServerState) (sock : SocketId)
    (h : SizeInv st) : SizeInv (leaveRoomEvent st sock).1 := by
  unfold leaveRoomEvent
  cases hc : st.currentRoom sock with
  | none => exact h
  | some roomId =>
      intro code room' hcc
      exact sizeInv_leaveRoom st sock roomId h _ _ hcc

theorem sizeInv_fireCleanup (st : ServerState) (roomId : RoomId)
    (h : SizeInv st) : SizeInv (fireCleanup st roomId) := by
  intro code room' hc
  unfold fireCleanup at hc
  cases hr : st.rooms roomId with
  | none => simp only [hr] at hc; exact h _ _ hc
  | some r =>
      simp only [hr] at hc
      split at hc
      · simp only at hc
        by_cases hcode : code = roomId
        · subst hcode; rw [Function.update_same] at hc; exact Option.noConfusion hc
        · rw [Function.update_noteq hcode] at hc; exact h _ _ hc
      · exact h _ _ hc

theorem sizeInv_staleSweep (st : ServerState) (h : SizeInv st) :
    SizeInv (staleSweep st) := by
  intro code room' hc
  simp only [staleSweep] at hc
  cases hr : st.rooms code with
  | none => simp only [hr] at hc; exact Option.noConfusion hc
  | some r =>
      simp only [hr] at hc
      by_cases hdel : r.participants.card = 0 ∧ 3600000 < st.time - r.createdAt
      · rw [if_pos hdel] at hc; cases hc
      · rw [if_neg hdel] at hc; cases hc; exact h _ _ hr

theorem sizeInv_createRoomOp (st : ServerState) (draws : Nat → RoomId)
    (h : SizeInv st) : SizeInv (createRoomOp st draws).1 := by
  intro code room' hc
  simp only [createRoomOp] at hc
  by_cases hcode : code = pickRoomId st.rooms draws 0
  · subst hcode; rw [Function.update_same] at hc; cases hc; simp [MAX_PARTICIPANTS]
  · rw [Function.update_noteq hcode] at hc; exact h _ _ hc

theorem sizeInv_execCmd (st : ServerState) (cmd : Cmd) (h : SizeInv st) :
    SizeInv (execCmd st cmd).1 := by
  cases cmd with
  | join sock roomId => exact sizeInv_joinRoom st sock roomId h
  | leaveCmd sock => exact sizeInv_leaveRoomEvent st sock h
  | disconnect sock => exact sizeInv_leaveRoomEvent st sock h
  | create draws => exact sizeInv_createRoomOp st draws h
  | fire roomId t =>
      simp only [execCmd]
      split
      · exact sizeInv_fireCleanup _ roomId h
      · exact h
  | sweep =>
      simp only [execCmd]
      split
      · exact sizeInv_staleSweep st h
      · exact h
  | tick dt => exact h

theorem sizeInv_execList (st : ServerState) (cmds : List Cmd) (h : SizeInv st) :
    SizeInv (execList st cmds) := by
  induction cmds generalizing st with
  | nil => exact h
  | cons c cs ih => exact ih _ (sizeInv_execCmd st c h)

theorem sizeInv_initState : SizeInv initState := by
  intro code room hc
  simp [initState] at hc

/-- **C1** (invariants): in every reachable registry state, every room's
participant set has at most `MAX_PARTICIPANTS = 4` members — room creation
(explicit or on-the-fly) initializes an empty set, and every join-room,
leave-room, disconnect, deferred-cleanup and sweep step preserves the bound,
the admission check rejecting a fifth member before any insertion. -/
theorem claim_c1_capacity_invariant (st : ServerState) (h : Reachable st) :
    ∀ code room, st.rooms code = some room →
      room.participants.card ≤ MAX_PARTICIPANTS := by
  obtain ⟨cmds, rfl⟩ := h
  exact sizeInv_execList initState cmds sizeInv_initState

/-- Witness for C1: the state reached by a single join of socket 1 into room
`"1234"` is reachable, holds that room with participant set `{1}`, and the
theorem bounds its size. -/
theorem claim_c1_capacity_invariant_witness :
    Reachable (execList initState [Cmd.join 1 "1234"]) ∧
    (execList initState [Cmd.join 1 "1234"]).rooms "1234" = some ⟨{1}, 0⟩ ∧
    (Room.mk {1} 0).participants.card ≤ MAX_PARTICIPANTS :=
  ⟨⟨[Cmd.join 1 "1234"], rfl⟩, by decide,
    claim_c1_capacity_invariant _ ⟨[Cmd.join 1 "1234"], rfl⟩ "1234" ⟨{1}, 0⟩ (by decide)⟩

/-- **C2** (error handling): a `join-room` for a room that already has
`MAX_PARTICIPANTS` members emits exactly one `room-full` event, to the
requester alone, and changes nothing: the requester is not inserted, its
`currentRoom` binding, the registry and the pending timers are all exactly
as before, and no other connection receives any event. -/
theorem claim_c2_full_room_join_noop (st : ServerState) (sock : SocketId)
    (roomId : RoomId) (room : Room)
    (hr : st.rooms roomId = some room)
    (h4 : room.participants.card = MAX_PARTICIPANTS) :
    joinRoom st sock roomId = (st, [Emit.roomFull sock]) :=
  joinRoom_full_eq st sock roomId room hr (le_of_eq h4.symm)

/-- A concrete state for the C2 witness: room `"4321"` is at capacity and the
requesting socket 9 is bound to another room. -/
def stFullC2 : ServerState :=
  { rooms := Function.update (fun _ => none) "4321" (some ⟨{0, 1, 2, 3}, 0⟩),
    currentRoom := Function.update (fun _ => none) 9 (some "7777"),
    timers := [], time := 5 }

/-- Witness for C2 at a concrete full room. -/
theorem claim_c2_full_room_join_noop_witness :
    stFullC2.rooms "4321" = some ⟨{0, 1, 2, 3}, 0⟩ ∧
    (Room.mk {0, 1, 2, 3} 0).participants.card = MAX_PARTICIPANTS ∧
    joinRoom stFullC2 9 "4321" = (stFullC2, [Emit.roomFull 9]) :=
  ⟨by decide, by decide,
    claim_c2_full_room_join_noop stFullC2 9 "4321" ⟨{0, 1, 2, 3}, 0⟩ (by decide) (by decide)⟩

/-! ## The room-creation drawing loop (C10, C8) -/

/-- When every one of the first 20 draws collides with an existing room, the
drawing loop runs out of attempts and settles on the 20th draw (`draws 19`). -/
theorem pickRoomId_all_collide (rooms : RoomId → Option Room) (draws : Nat → RoomId)
    (h : ∀ i, i < 20 → (rooms (draws i)).isSome) :
    ∀ n j, j + n = 19 → pickRoomId rooms draws j = draws 19 := by
  intro n
  induction n with
  | zero =>
      intro j hj
      have hj' : j = 19 := by omega
      subst hj'
      rw [pickRoomId]
      rw [if_neg]
      omega
  | succ m ih =>
      intro j hj
      rw [pickRoomId]
      rw [if_pos ⟨h j (by omega), by omega⟩]
      exact ih (j + 1) (by omega)

/-- The code the drawing loop settles on is always one of the draws. -/
theorem pickRoomId_is_a_draw (rooms : RoomId → Option Room) (draws : Nat → RoomId) :
    ∀ n j, 20 - j ≤ n → ∃ k, pickRoomId rooms draws j = draws k := by
  intro n
  induction n with
  | zero =>
      intro j hj
      rw [pickRoomId]
      rw [if_neg (by omega)]
      exact ⟨j, rfl⟩
  | succ m ih =>
      intro j _
      rw [pickRoomId]
      by_cases hc : (rooms (draws j)).isSome ∧ j + 1 < 20
      · rw [if_pos hc]
        exact ih (j + 1) (by omega)
      · rw [if_neg hc]
        exact ⟨j, rfl⟩

/-- **C10** (frame effect): `POST /api/rooms` unconditionally overwrites the
registry entry for the finally drawn code: when all 20 draws collide with
existing rooms, the response code is the 20th draw and the registry maps it
to a fresh empty room — even if it previously held an occupied room — while
every connection's `currentRoom` binding (which may still reference that
code) is left untouched. -/
theorem claim_c10_create_overwrites (st : ServerState) (draws : Nat → RoomId)
    (h : ∀ i, i < 20 → (st.rooms (draws i)).isSome) :
    (createRoomOp st draws).2 = draws 19 ∧
    (createRoomOp st draws).1.rooms (draws 19) =
      some { participants := ∅, createdAt := st.time } ∧
    (createRoomOp st draws).1.currentRoom = st.currentRoom := by
  have hp : pickRoomId st.rooms draws 0 = draws 19 :=
    pickRoomId_all_collide st.rooms draws h 19 0 (by omega)
  refine ⟨hp, ?_, rfl⟩
  simp only [createRoomOp, hp, Function.update_same]

/-- A concrete state for the C10 witness: room `"1111"` exists and is
occupied by socket 5, which is bound to it; the generator draws `"1111"`
every time. -/
def stC10 : ServerState :=
  { rooms := Function.update (fun _ => none) "1111" (some ⟨{5}, 2⟩),
    currentRoom := Function.update (fun _ => none) 5 (some "1111"),
    timers := [], time := 777 }

/-- Witness for C10: with every draw colliding on the occupied room `"1111"`,
creation returns `"1111"` and resets it to an empty room while socket 5's
binding still references it. -/
theorem claim_c10_create_overwrites_witness :
    (∀ i, i < 20 → (stC10.rooms ((fun _ => "1111") i : RoomId)).isSome) ∧
    stC10.rooms "1111" = some ⟨{5}, 2⟩ ∧
    ((createRoomOp stC10 (fun _ => "1111")).2 = "1111" ∧
      (createRoomOp stC10 (fun _ => "1111")).1.rooms "1111" =
        some { participants := ∅, createdAt := 777 } ∧
      (createRoomOp stC10 (fun _ => "1111")).1.currentRoom = stC10.currentRoom) :=
  ⟨fun _ _ => (show (stC10.rooms "1111").isSome = true by decide),
    by decide,
    claim_c10_create_overwrites stC10 (fun _ => "1111")
      (fun _ _ => (show (stC10.rooms "1111").isSome = true by decide))⟩

/-! ## Presence and key lemmas for the registry -/

theorem isSome_update_some (f : RoomId → Option Room) (a : RoomId) (v : Room)
    (code : RoomId) (h : (f code).isSome) :
    ((Function.update f a (some v)) code).isSome := by
  by_cases hc : code = a
  · subst hc; simp [Function.update_same]
  · simpa [Function.update_noteq hc] using h

/-- A join never removes a registry entry. -/
theorem joinRoom_rooms_isSome (st : ServerState) (sock : SocketId) (roomId : RoomId)
    (code : RoomId) (h : (st.rooms code).isSome) :
    ((joinRoom st sock roomId).1.rooms code).isSome := by
  cases hr : st.rooms roomId with
  | some room =>
      by_cases h4 : MAX_PARTICIPANTS ≤ room.participants.card
      · rw [joinRoom_full_eq st sock roomId room hr h4]; exact h
      · rw [joinRoom_success_eq st sock roomId room hr (lt_of_not_le h4)]
        cases hc : st.currentRoom sock with
        | none => exact isSome_update_some _ _ _ _ h
        | some prev =>
            exact isSome_update_some _ _ _ _ (leaveRoom_rooms_isSome st sock prev code h)
  | none =>
      rw [joinRoom_create_eq st sock roomId hr]
      have hC : ((Function.update st.rooms roomId
          (some { participants := ∅, createdAt := st.time })) code).isSome :=
        isSome_update_some _ _ _ _ h
      cases hc : st.currentRoom sock with
      | none => exact isSome_update_some _ _ _ _ hC
      | some prev =>
          exact isSome_update_some _ _ _ _ (leaveRoom_rooms_isSome _ sock prev code hC)

/-- A leave (or disconnect) never removes a registry entry. -/
theorem leaveRoomEvent_rooms_isSome (st : ServerState) (sock : SocketId)
    (code : RoomId) (h : (st.rooms code).isSome) :
    ((leaveRoomEvent st sock).1.rooms code).isSome := by
  unfold leaveRoomEvent
  cases hc : st.currentRoom sock with
  | none => exact h
  | some roomId => exact leaveRoom_rooms_isSome st sock roomId code h

/-- Room creation never removes a registry entry. -/
theorem createRoomOp_rooms_isSome (st : ServerState) (draws : Nat → RoomId)
    (code : RoomId) (h : (st.rooms code).isSome) :
    ((createRoomOp st draws).1.rooms code).isSome :=
  isSome_update_some _ _ _ _ h

/-- The only steps that remove a present room from the registry are a
deferred-cleanup firing on that room while it is empty, and a sweep run
while it is empty with `createdAt` more than the staleness threshold in the
past. -/
theorem rooms_delete_only (st : ServerState) (cmd : Cmd) (code : RoomId) (room : Room)
    (hsome : st.rooms code = some room)
    (hnone : (execCmd st cmd).1.rooms code = none) :
    (∃ t, cmd = Cmd.fire code t ∧ room.participants.card = 0) ∨
      (cmd = Cmd.sweep ∧ room.participants.card = 0 ∧
        3600000 < st.time - room.createdAt) := by
  cases cmd with
  | join sock roomId =>
      have := joinRoom_rooms_isSome st sock roomId code (by simp [hsome])
      rw [show (execCmd st (Cmd.join sock roomId)).1 = (joinRoom st sock roomId).1 from rfl]
        at hnone
      rw [hnone] at this
      exact absurd this (by simp)
  | leaveCmd sock =>
      have := leaveRoomEvent_rooms_isSome st sock code (by simp [hsome])
      rw [show (execCmd st (Cmd.leaveCmd sock)).1 = (leaveRoomEvent st sock).1 from rfl]
        at hnone
      rw [hnone] at this
      exact absurd this (by simp)
  | disconnect sock =>
      have := leaveRoomEvent_rooms_isSome st sock code (by simp [hsome])
      rw [show (execCmd st (Cmd.disconnect sock)).1 = (leaveRoomEvent st sock).1 from rfl]
        at hnone
      rw [hnone] at this
      exact absurd this (by simp)
  | create draws =>
      have := createRoomOp_rooms_isSome st draws code (by simp [hsome])
      rw [show (execCmd st (Cmd.create draws)).1 = (createRoomOp st draws).1 from rfl]
        at hnone
      rw [hnone] at this
      exact absurd this (by simp)
  | fire roomId t =>
      simp only [execCmd] at hnone
      split at hnone
      · unfold fireCleanup at hnone
        cases hfr : st.rooms roomId with
        | none =>
            simp only [hfr] at hnone
            rw [hsome] at hnone
            exact Option.noConfusion hnone
        | some r =>
            simp only [hfr] at hnone
            split at hnone
            · by_cases hcode : code = roomId
              · subst hcode
                rw [hsome] at hfr
                cases hfr
                rename_i hcard
                exact Or.inl ⟨t, rfl, hcard⟩
              · simp only at hnone
                rw [Function.update_noteq hcode] at hnone
                rw [hsome] at hnone
                exact Option.noConfusion hnone
            · rw [show ({ st with timers := st.timers.erase (roomId, t) } :
                  ServerState).rooms code = st.rooms code from rfl] at hnone
              rw [hsome] at hnone
              exact Option.noConfusion hnone
      · rw [hsome] at hnone
        exact Option.noConfusion hnone
  | sweep =>
      simp only [execCmd] at hnone
      split at hnone
      · simp only [staleSweep, hsome] at hnone
        split at hnone
        · rename_i hcond
          exact Or.inr ⟨rfl, hcond⟩
        · exact Option.noConfusion hnone
      · rw [hsome] at hnone
        exact Option.noConfusion hnone
  | tick dt =>
      simp [execCmd, hsome] at hnone

/-- What a pending deferred cleanup does when it fires: delete the room if
and only if it is still empty, leave it untouched otherwise. -/
theorem fire_deletes_iff_empty (st : ServerState) (code : RoomId) (t : Nat)
    (hmem : (code, t) ∈ st.timers) (hle : t ≤ st.time) :
    (execCmd st (Cmd.fire code t)).1.rooms code =
      (match st.rooms code with
        | some r => if r.participants.card = 0 then none else some r
        | none => none) := by
  simp only [execCmd, if_pos (And.intro hmem hle)]
  unfold fireCleanup
  cases hr : st.rooms code with
  | none => simp only [hr]
  | some r =>
      simp only [hr]
      by_cases hc0 : r.participants.card = 0
      · simp only [if_pos hc0, Function.update_same]
      · simp only [if_neg hc0]
        exact hr

/-- **C6 (corrected)** (temporal): when a deferred cleanup fires it deletes
its room if and only if the room is still empty at fire time, so a room
rejoined during the grace period is not deleted by it; and the only way an
emptied room can leave the registry before its deferred cleanup fires is the
background stale sweep, which may delete it during the grace period whenever
the room's `createdAt` is more than 1 hour in the past. (The original claim
that the room always remains queryable throughout the whole 5-minute grace
period is refuted by `claim_c6_counterexample`.) -/
theorem claim_c6_grace_period_amended :
    (∀ (st : ServerState) (code : RoomId) (t : Nat),
        (code, t) ∈ st.timers → t ≤ st.time →
        (execCmd st (Cmd.fire code t)).1.rooms code =
          (match st.rooms code with
            | some r => if r.participants.card = 0 then none else some r
            | none => none)) ∧
    (∀ (st : ServerState) (cmd : Cmd) (code : RoomId) (room : Room),
        st.rooms code = some room →
        (execCmd st cmd).1.rooms code = none →
        (∃ t, cmd = Cmd.fire code t ∧ room.participants.card = 0) ∨
          (cmd = Cmd.sweep ∧ room.participants.card = 0 ∧
            3600000 < st.time - room.createdAt)) :=
  ⟨fire_deletes_iff_empty, rooms_delete_only⟩

/-- The trace refuting C6 as stated: socket 1 joins room `"1234"` at time 0
and leaves at time 5300000, scheduling the deferred cleanup for 5600000; the
periodic sweep runs at time 5400000 (a multiple of its 1800000 ms period)
and, because the room is empty with `createdAt` more than 1 hour old,
deletes it — 200000 ms before the grace period ends. -/
def c6Trace : List Cmd :=
  [Cmd.join 1 "1234", Cmd.tick 5300000, Cmd.leaveCmd 1, Cmd.tick 100000, Cmd.sweep]

/-- Counterexample to C6 as stated: after `c6Trace` the deferred cleanup for
room `"1234"` is still pending for time 5600000 and the current time 5400000
lies inside the grace period, yet the room is already gone from the
registry. -/
theorem claim_c6_counterexample :
    ("1234", 5600000) ∈ (execList initState c6Trace).timers ∧
    (execList initState c6Trace).time = 5400000 ∧
    (execList initState c6Trace).time < 5600000 ∧
    (execList initState c6Trace).rooms "1234" = none := by decide

/-- First state of the C6 witness: an empty room whose cleanup timer is due —
and, to exhibit the rejoined case, a second state with the room reoccupied. -/
def stC6a : ServerState :=
  { rooms := Function.update (fun _ => none) "2000" (some ⟨{3}, 0⟩),
    currentRoom := fun _ => none, timers := [("2000", 5)], time := 10 }

/-- Second state of the C6 witness: an empty room created at time 0, with the
clock at 5400000 (a sweep period multiple, more than 1 hour later). -/
def stC6b : ServerState :=
  { rooms := Function.update (fun _ => none) "9999" (some ⟨∅, 0⟩),
    currentRoom := fun _ => none, timers := [], time := 5400000 }

/-- Witness for the amended C6: firing the due cleanup of `stC6a` keeps room
`"2000"` because it was rejoined (participant 3 present); and the sweep that
deletes the empty 1-hour-old room of `stC6b` is classified by the theorem as
a sweep deletion. -/
theorem claim_c6_grace_period_amended_witness :
    (("2000", 5) ∈ stC6a.timers ∧ (5 : Nat) ≤ stC6a.time ∧
      (execCmd stC6a (Cmd.fire "2000" 5)).1.rooms "2000" = some ⟨{3}, 0⟩) ∧
    (stC6b.rooms "9999" = some ⟨∅, 0⟩ ∧
      (execCmd stC6b Cmd.sweep).1.rooms "9999" = none ∧
      ((∃ t, Cmd.sweep = Cmd.fire "9999" t ∧ (Room.mk ∅ 0).participants.card = 0) ∨
        (Cmd.sweep = Cmd.sweep ∧ (Room.mk ∅ 0).participants.card = 0 ∧
          3600000 < stC6b.time - (Room.mk ∅ 0).createdAt))) :=
  ⟨⟨by decide, by decide,
      (claim_c6_grace_period_amended.1 stC6a "2000" 5 (by decide) (by decide)).trans
        (by decide)⟩,
    by decide, by decide,
    claim_c6_grace_period_amended.2 stC6b Cmd.sweep "9999" ⟨∅, 0⟩ (by decide) (by decide)⟩

/-- **C7 (corrected)** (functional correctness): a sweep run deletes exactly
those rooms that are currently empty and whose *creation time* lies more
than the 1-hour staleness threshold in the past — the sweep never measures
how long a room has been empty, so a room that only just became empty *is*
deleted whenever it was created more than 1 hour ago. (The original claim —
deletion keyed on the duration of emptiness, independent of creation time —
is refuted by `claim_c7_counterexample`.) -/
theorem claim_c7_sweep_amended (st : ServerState) (code : RoomId) (room : Room)
    (hmod : st.time % 1800000 = 0)
    (hr : st.rooms code = some room) :
    ((execCmd st Cmd.sweep).1.rooms code = none ↔
      (room.participants.card = 0 ∧ 3600000 < st.time - room.createdAt)) ∧
    (¬(room.participants.card = 0 ∧ 3600000 < st.time - room.createdAt) →
      (execCmd st Cmd.sweep).1.rooms code = some room) := by
  have hstep : (execCmd st Cmd.sweep).1 = staleSweep st := by
    simp [execCmd, hmod]
  rw [hstep]
  have hcompute : (staleSweep st).rooms code =
      (if room.participants.card = 0 ∧ 3600000 < st.time - room.createdAt then
        none else some room) := by
    simp only [staleSweep, hr]
  rw [hcompute]
  by_cases hcond : room.participants.card = 0 ∧ 3600000 < st.time - room.createdAt
  · rw [if_pos hcond]
    exact ⟨⟨fun _ => hcond, fun _ => rfl⟩, fun hn => absurd hcond hn⟩
  · rw [if_neg hcond]
    exact ⟨⟨fun h => Option.noConfusion h, fun hc => absurd hc hcond⟩, fun _ => rfl⟩

/-- The trace refuting C7 as stated: socket 1 joins room `"1234"` at time 0
and leaves at time 5399999 — so the room has been empty for exactly 1 ms
when the sweep runs at 5400000 — yet the sweep deletes it because the room
was *created* more than 1 hour earlier. -/
def c7Trace : List Cmd :=
  [Cmd.join 1 "1234", Cmd.tick 5399999, Cmd.leaveCmd 1, Cmd.tick 1, Cmd.sweep]

/-- Counterexample to C7 as stated: just before the sweep the room exists,
empty for only 1 ms (far below any staleness threshold); the sweep deletes
it anyway. -/
theorem claim_c7_counterexample :
    (execList initState (c7Trace.take 4)).rooms "1234" = some ⟨∅, 0⟩ ∧
    (execList initState (c7Trace.take 4)).time = 5400000 ∧
    (execList initState c7Trace).rooms "1234" = none := by decide

/-- State for the C7 witness: an empty room created at time 100, clock at
7200000 (a sweep period multiple, more than 1 hour later). -/
def stC7w : ServerState :=
  { rooms := Function.update (fun _ => none) "8888" (some ⟨∅, 100⟩),
    currentRoom := fun _ => none, timers := [], time := 7200000 }

/-- Witness for the amended C7 at `stC7w`. -/
theorem claim_c7_sweep_amended_witness :
    stC7w.time % 1800000 = 0 ∧ stC7w.rooms "8888" = some ⟨∅, 100⟩ ∧
    (((execCmd stC7w Cmd.sweep).1.rooms "8888" = none ↔
        ((Room.mk ∅ 100).participants.card = 0 ∧
          3600000 < stC7w.time - (Room.mk ∅ 100).createdAt)) ∧
      (¬((Room.mk ∅ 100).participants.card = 0 ∧
          3600000 < stC7w.time - (Room.mk ∅ 100).createdAt) →
        (execCmd stC7w Cmd.sweep).1.rooms "8888" = some ⟨∅, 100⟩)) :=
  ⟨by decide, by decide,
    claim_c7_sweep_amended stC7w "8888" ⟨∅, 100⟩ (by decide) (by decide)⟩

/-! ## Registry key shape (C8) -/

theorem keys_leaveRoom (st : ServerState) (sock : SocketId) (roomId : RoomId)
    (h : KeysFourDigit st) : KeysFourDigit (leaveRoom st sock roomId).1 := by
  intro code room' hc
  rw [leaveRoom_fst_rooms] at hc
  cases hr : st.rooms roomId with
  | none => simp only [hr] at hc; exact h _ _ hc
  | some room =>
      simp only [hr] at hc
      by_cases hcode : code = roomId
      · subst hcode; exact h _ _ hr
      · rw [Function.update_noteq hcode] at hc; exact h _ _ hc

/-- The state built by the tail of a successful join keeps all keys 4-digit
when the joined code is 4-digit. -/
theorem keys_join_tail (st1 : ServerState) (sock : SocketId) (roomId : RoomId)
    (fallback : Room) (h1 : KeysFourDigit st1)
    (hg : isFourDigitCode roomId = true) :
    KeysFourDigit
      { st1 with
          rooms := (Function.update st1.rooms roomId
            (some { (match st1.rooms roomId with | some r => r | none => fallback) with
                    participants :=
                      insert sock
                        (match st1.rooms roomId with
                          | some r => r
                          | none => fallback).participants })),
          currentRoom := Function.update st1.currentRoom sock (some roomId) } := by
  intro code room' hc
  simp only at hc
  by_cases hcode : code = roomId
  · subst hcode; exact hg
  · rw [Function.update_noteq hcode] at hc
    exact h1 _ _ hc

theorem keys_joinRoom (st : ServerState) (sock : SocketId) (roomId : RoomId)
    (hg : isFourDigitCode roomId = true) (h : KeysFourDigit st) :
    KeysFourDigit (joinRoom st sock roomId).1 := by
  cases hr : st.rooms roomId with
  | some room =>
      by_cases h4 : MAX_PARTICIPANTS ≤ room.participants.card
      · rw [joinRoom_full_eq st sock roomId room hr h4]; exact h
      · rw [joinRoom_success_eq st sock roomId room hr (lt_of_not_le h4)]
        cases hc : st.currentRoom sock with
        | none => exact keys_join_tail st sock roomId room h hg
        | some prev =>
            exact keys_join_tail _ sock roomId room (keys_leaveRoom st sock prev h) hg
  | none =>
      rw [joinRoom_create_eq st sock roomId hr]
      have hC : KeysFourDigit
          { st with rooms := (Function.update st.rooms roomId
              (some { participants := ∅, createdAt := st.time })) } := by
        intro code room' hcc
        simp only at hcc
        by_cases hcode : code = roomId
        · subst hcode; exact hg
        · rw [Function.update_noteq hcode] at hcc; exact h _ _ hcc
      cases hc : st.currentRoom sock with
      | none => exact keys_join_tail _ sock roomId _ hC hg
      | some prev => exact keys_join_tail _ sock roomId _ (keys_leaveRoom _ sock prev hC) hg

theorem keys_leaveRoomEvent (st : ServerState) (sock : SocketId)
    (h : KeysFourDigit st) : KeysFourDigit (leaveRoomEvent st sock).1 := by
  unfold leaveRoomEvent
  cases hc : st.currentRoom sock with
  | none => exact h
  | some roomId =>
      intro code room' hcc
      exact keys_leaveRoom st sock roomId h _ _ hcc

theorem keys_createRoomOp (st : ServerState) (draws : Nat → RoomId)
    (hg : ∀ i, isFourDigitCode (draws i) = true) (h : KeysFourDigit st) :
    KeysFourDigit (createRoomOp st draws).1 := by
  intro code room' hc
  simp only [createRoomOp] at hc
  by_cases hcode : code = pickRoomId st.rooms draws 0
  · obtain ⟨k, hk⟩ := pickRoomId_is_a_draw st.rooms draws 20 0 (by omega)
    subst hcode; rw [hk]; exact hg k
  · rw [Function.update_noteq hcode] at hc; exact h _ _ hc

theorem keys_fireCleanup (st : ServerState) (roomId : RoomId)
    (h : KeysFourDigit st) : KeysFourDigit (fireCleanup st roomId) := by
  intro code room' hc
  unfold fireCleanup at hc
  cases hr : st.rooms roomId with
  | none => simp only [hr] at hc; exact h _ _ hc
  | some r =>
      simp only [hr] at hc
      split at hc
      · simp only at hc
        by_cases hcode : code = roomId
        · subst hcode; rw [Function.update_same] at hc; exact Option.noConfusion hc
        · rw [Function.update_noteq hcode] at hc; exact h _ _ hc
      · exact h _ _ hc

theorem keys_staleSweep (st : ServerState) (h : KeysFourDigit st) :
    KeysFourDigit (staleSweep st) := by
  intro code room' hc
  simp only [staleSweep] at hc
  cases hr : st.rooms code with
  | none => simp only [hr] at hc; exact Option.noConfusion hc
  | some r =>
      simp only [hr] at hc
      by_cases hdel : r.participants.card = 0 ∧ 3600000 < st.time - r.createdAt
      · rw [if_pos hdel] at hc; exact Option.noConfusion hc
      · exact h _ _ hr

theorem keys_execCmd (st : ServerState) (cmd : Cmd) (hg : GoodCmd cmd)
    (h : KeysFourDigit st) : KeysFourDigit (execCmd st cmd).1 := by
  cases cmd with
  | join sock roomId => exact keys_joinRoom st sock roomId hg h
  | leaveCmd sock => exact keys_leaveRoomEvent st sock h
  | disconnect sock => exact keys_leaveRoomEvent st sock h
  | create draws => exact keys_createRoomOp st draws hg h
  | fire roomId t =>
      simp only [execCmd]
      split
      · exact keys_fireCleanup _ roomId h
      · exact h
  | sweep =>
      simp only [execCmd]
      split
      · exact keys_staleSweep st h
      · exact h
  | tick dt => exact h

theorem keys_execList (st : ServerState) (cmds : List Cmd)
    (hg : ∀ c ∈ cmds, GoodCmd c) (h : KeysFourDigit st) :
    KeysFourDigit (execList st cmds) := by
  induction cmds generalizing st with
  | nil => exact h
  | cons c cs ih =>
      exact ih _ (fun d hd => hg d (List.mem_cons_of_mem c hd))
        (keys_execCmd st c (hg c (List.mem_cons_self c cs)) h)

/-- **C8 (amended)** (invariants): the `POST /api/rooms` handler only ever
inserts codes drawn from the 4-digit generator, but the `join-room` handler
keys the registry by the client-supplied string with no validation; hence
every registry key is a 4-digit numeric string exactly on those traces whose
`join-room` inputs (and generator draws) are 4-digit numeric strings. (The
original unconditional invariant is refuted by `claim_c8_counterexample`.) -/
theorem claim_c8_four_digit_keys_amended (cmds : List Cmd)
    (hg : ∀ c ∈ cmds, GoodCmd c) :
    ∀ code room, (execList initState cmds).rooms code = some room →
      isFourDigitCode code = true :=
  keys_execList initState cmds hg (fun code room hc => by simp [initState] at hc)

/-- Witness for the amended C8: a protocol-respecting join leaves only
4-digit keys in the registry. -/
theorem claim_c8_four_digit_keys_amended_witness :
    (∀ c ∈ [Cmd.join 1 "1234"], GoodCmd c) ∧
    (execList initState [Cmd.join 1 "1234"]).rooms "1234" = some ⟨{1}, 0⟩ ∧
    isFourDigitCode "1234" = true :=
  ⟨fun c hc => by
      rw [List.mem_singleton] at hc
      subst hc
      exact (show isFourDigitCode "1234" = true by decide),
    by decide,
    claim_c8_four_digit_keys_amended [Cmd.join 1 "1234"]
      (fun c hc => by
        rw [List.mem_singleton] at hc
        subst hc
        exact (show isFourDigitCode "1234" = true by decide))
      "1234" ⟨{1}, 0⟩ (by decide)⟩

/-- Counterexample to C8 as stated: the `join-room` handler performs no
format check, so a join for the 5-character non-numeric id `"lobby"` creates
and keys a registry room under it — a reachable registry state whose key is
not a 4-digit numeric string. -/
theorem claim_c8_counterexample :
    (execList initState [Cmd.join 7 "lobby"]).rooms "lobby" = some ⟨{7}, 0⟩ ∧
    isFourDigitCode "lobby" = false := by decide

/-! ## Events of join and leave (C5) -/

theorem participantJoined_injective (sock : SocketId) :
    Function.Injective (fun id => Emit.participantJoined id sock) := by
  intro a b hab
  injection hab

theorem participantLeft_injective (sock : SocketId) :
    Function.Injective (fun id => Emit.participantLeft id sock) := by
  intro a b hab
  injection hab

/-- Everything `leaveRoom` emits is a `participant-left`. -/
theorem leaveRoom_snd_forms (st : ServerState) (sock : SocketId) (roomId : RoomId) :
    ∀ e ∈ (leaveRoom st sock roomId).2, ∃ a b, e = Emit.participantLeft a b := by
  intro e he
  rw [leaveRoom_snd] at he
  cases hr : st.rooms roomId with
  | none => simp only [hr] at he; exact absurd he (List.not_mem_nil e)
  | some room =>
      simp only [hr] at he
      obtain ⟨a, _, rfl⟩ := List.mem_map.mp he
      exact ⟨a, sock, rfl⟩

/-- The shape of the event batch produced by the tail of a successful join,
for an arbitrary post-insert participant set `s` and arbitrary preceding
`participant-left` emits: exactly one `room-joined`, to the joiner, whose
list is exactly `s` minus the joiner; and exactly one `participant-joined`
per other member. -/
theorem join_emits_spec (preEmits : List Emit) (sock : SocketId) (s : Finset SocketId)
    (hpre : ∀ e ∈ preEmits, ∃ a b, e = Emit.participantLeft a b) :
    ((preEmits ++ [Emit.roomJoined sock ((s.sort (· ≤ ·)).filter (fun id => id ≠ sock))] ++
        ((s.sort (· ≤ ·)).filter (fun id => id ≠ sock)).map
          (fun id => Emit.participantJoined id sock)).filter isRoomJoined =
      [Emit.roomJoined sock ((s.sort (· ≤ ·)).filter (fun id => id ≠ sock))]) ∧
    ((s.sort (· ≤ ·)).filter (fun id => id ≠ sock)).Nodup ∧
    ((s.sort (· ≤ ·)).filter (fun id => id ≠ sock)).toFinset = s.erase sock ∧
    (∀ id ∈ s.erase sock,
      (preEmits ++ [Emit.roomJoined sock ((s.sort (· ≤ ·)).filter (fun id => id ≠ sock))] ++
        ((s.sort (· ≤ ·)).filter (fun id => id ≠ sock)).map
          (fun id => Emit.participantJoined id sock)).count
        (Emit.participantJoined id sock) = 1) := by
  refine ⟨?_, ?_, ?_, ?_⟩
  · rw [List.filter_append, List.filter_append]
    have h1 : preEmits.filter isRoomJoined = [] := by
      rw [List.filter_eq_nil_iff]
      intro e he
      obtain ⟨a, b, rfl⟩ := hpre e he
      simp [isRoomJoined]
    have h2 : (((s.sort (· ≤ ·)).filter (fun id => id ≠ sock)).map
        (fun id => Emit.participantJoined id sock)).filter isRoomJoined = [] := by
      rw [List.filter_eq_nil_iff]
      intro e he
      obtain ⟨a, _, rfl⟩ := List.mem_map.mp he
      simp [isRoomJoined]
    rw [h1, h2]
    simp [isRoomJoined]
  · exact (Finset.sort_nodup _ s).filter _
  · ext x
    simp only [List.mem_toFinset, List.mem_filter, Finset.mem_sort, Finset.mem_erase,
      decide_eq_true_eq]
    exact ⟨fun ⟨h1, h2⟩ => ⟨h2, h1⟩, fun ⟨h1, h2⟩ => ⟨h2, h1⟩⟩
  · intro id hid
    obtain ⟨hne, hmem⟩ := Finset.mem_erase.mp hid
    rw [List.count_append, List.count_append]
    have h0 : preEmits.count (Emit.participantJoined id sock) = 0 := by
      rw [List.count_eq_zero]
      intro hmem'
      obtain ⟨a, b, he⟩ := hpre _ hmem'
      exact Emit.noConfusion he
    have h1 : List.count (Emit.participantJoined id sock)
        [Emit.roomJoined sock ((s.sort (· ≤ ·)).filter (fun id => id ≠ sock))] = 0 := by
      rw [List.count_eq_zero]
      simp
    have h2 : (((s.sort (· ≤ ·)).filter (fun id => id ≠ sock)).map
          (fun id => Emit.participantJoined id sock)).count
        (Emit.participantJoined id sock) = 1 := by
      rw [List.count_map_of_injective _ _ (participantJoined_injective sock)]
      refine List.count_eq_one_of_mem ((Finset.sort_nodup _ s).filter _) ?_
      rw [List.mem_filter]
      exact ⟨(Finset.mem_sort _).mpr hmem, by simpa using hne⟩
    rw [h0, h1, h2]

/-- **C5** (functional correctness): on every successful join the joiner
receives exactly one `room-joined` event whose participant list is exactly
the set of the room's other current members (the post-join room minus the
joiner), and every other current member receives exactly one
`participant-joined` carrying the joiner's identity; and on every leave or
disconnect of a bound participant, every remaining member of that room
receives exactly one `participant-left` carrying the departing identity. -/
theorem claim_c5_join_leave_events :
    (∀ (st : ServerState) (sock : SocketId) (roomId : RoomId),
      (∀ r, st.rooms roomId = some r → r.participants.card < MAX_PARTICIPANTS) →
      ∃ l, (joinRoom st sock roomId).2.filter isRoomJoined = [Emit.roomJoined sock l] ∧
        l.Nodup ∧
        l.toFinset = membersExcept (joinRoom st sock roomId).1 roomId sock ∧
        ∀ id ∈ membersExcept (joinRoom st sock roomId).1 roomId sock,
          (joinRoom st sock roomId).2.count (Emit.participantJoined id sock) = 1) ∧
    (∀ (st : ServerState) (sock : SocketId) (roomId : RoomId),
      st.currentRoom sock = some roomId →
      ∀ id ∈ membersExcept st roomId sock,
        (leaveRoomEvent st sock).2.count (Emit.participantLeft id sock) = 1) := by
  constructor
  · intro st sock roomId hok
    cases hr : st.rooms roomId with
    | some room =>
        have h4 : room.participants.card < MAX_PARTICIPANTS := hok room hr
        rw [joinRoom_success_eq st sock roomId room hr h4]
        cases hc : st.currentRoom sock with
        | none =>
            simp only [hc, hr]
            have := join_emits_spec [] sock (insert sock room.participants)
              (by intro e he; exact absurd he (List.not_mem_nil e))
            refine ⟨_, ?_, this.2.1, ?_, ?_⟩
            · simpa using this.1
            · simpa [membersExcept, Function.update_same] using this.2.2.1
            · intro id hid
              have hid' : id ∈ (insert sock room.participants).erase sock := by
                simpa [membersExcept, Function.update_same] using hid
              simpa using this.2.2.2 id hid'
        | some prev =>
            simp only [hc, hr]
            have := join_emits_spec (leaveRoom st sock prev).2 sock
              (insert sock
                (match (leaveRoom st sock prev).1.rooms roomId with
                  | some r => r
                  | none => room).participants)
              (leaveRoom_snd_forms st sock prev)
            refine ⟨_, ?_, this.2.1, ?_, ?_⟩
            · simpa using this.1
            · simpa [membersExcept, Function.update_same] using this.2.2.1
            · intro id hid
              have hid' : id ∈ (insert sock
                  (match (leaveRoom st sock prev).1.rooms roomId with
                    | some r => r
                    | none => room).participants).erase sock := by
                simpa [membersExcept, Function.update_same] using hid
              simpa using this.2.2.2 id hid'
    | none =>
        rw [joinRoom_create_eq st sock roomId hr]
        cases hc : st.currentRoom sock with
        | none =>
            simp only [hc, Function.update_same]
            have := join_emits_spec [] sock
              (insert sock (Room.mk ∅ st.time).participants)
              (by intro e he; exact absurd he (List.not_mem_nil e))
            refine ⟨_, ?_, this.2.1, ?_, ?_⟩
            · simpa using this.1
            · simpa [membersExcept, Function.update_same] using this.2.2.1
            · intro id hid
              have hid' : id ∈ (insert sock (Room.mk ∅ st.time).participants).erase sock := by
                simpa [membersExcept, Function.update_same] using hid
              simpa using this.2.2.2 id hid'
        | some prev =>
            simp only [hc, Function.update_same]
            have := join_emits_spec
              (leaveRoom
                { st with rooms := (Function.update st.rooms roomId
                    (some { participants := ∅, createdAt := st.time })) } sock prev).2 sock
              (insert sock
                (match (leaveRoom
                    { st with rooms := (Function.update st.rooms roomId
                        (some { participants := ∅, createdAt := st.time })) }
                    sock prev).1.rooms roomId with
                  | some r => r
                  | none => Room.mk ∅ st.time).participants)
              (leaveRoom_snd_forms _ sock prev)
            refine ⟨_, ?_, this.2.1, ?_, ?_⟩
            · simpa using this.1
            · simpa [membersExcept, Function.update_same] using this.2.2.1
            · intro id hid
              have hid' : id ∈ (insert sock
                  (match (leaveRoom
                      { st with rooms := (Function.update st.rooms roomId
                          (some { participants := ∅, createdAt := st.time })) }
                      sock prev).1.rooms roomId with
                    | some r => r
                    | none => Room.mk ∅ st.time).participants).erase sock := by
                simpa [membersExcept, Function.update_same] using hid
              simpa using this.2.2.2 id hid'
  · intro st sock roomId hb id hid
    unfold leaveRoomEvent
    simp only [hb]
    rw [leaveRoom_snd]
    cases hr : st.rooms roomId with
    | none => simp [membersExcept, hr] at hid
    | some room =>
        have hid' : id ∈ room.participants.erase sock := by
          simpa [membersExcept, hr] using hid
        simp only [hr]
        rw [List.count_map_of_injective _ _ (participantLeft_injective sock)]
        exact List.count_eq_one_of_mem (Finset.sort_nodup _ _)
          ((Finset.mem_sort _).mpr hid')

/-- State for the C5 witness: room `"3333"` holds socket 2, which is bound
to it; socket 1 is unbound and about to join. -/
def stC5 : ServerState :=
  { rooms := Function.update (fun _ => none) "3333" (some ⟨{2}, 5⟩),
    currentRoom := Function.update (fun _ => none) 2 (some "3333"),
    timers := [], time := 9 }

/-- Witness for C5: socket 1 joining the one-member room `"3333"` of `stC5`,
and socket 2 (bound there) leaving it. -/
theorem claim_c5_join_leave_events_witness :
    (∀ r, stC5.rooms "3333" = some r → r.participants.card < MAX_PARTICIPANTS) ∧
    (∃ l, (joinRoom stC5 1 "3333").2.filter isRoomJoined = [Emit.roomJoined 1 l] ∧
        l.Nodup ∧
        l.toFinset = membersExcept (joinRoom stC5 1 "3333").1 "3333" 1 ∧
        ∀ id ∈ membersExcept (joinRoom stC5 1 "3333").1 "3333" 1,
          (joinRoom stC5 1 "3333").2.count (Emit.participantJoined id 1) = 1) ∧
    (stC5.currentRoom 2 = some "3333" ∧
      ∀ id ∈ membersExcept stC5 "3333" 2,
        (leaveRoomEvent stC5 2).2.count (Emit.participantLeft id 2) = 1) := by
  have hfull : ∀ r, stC5.rooms "3333" = some r →
      r.participants.card < MAX_PARTICIPANTS := by
    intro r hr
    have h : stC5.rooms "3333" = some ⟨{2}, 5⟩ := by decide
    rw [h] at hr
    cases hr
    decide
  exact ⟨hfull, claim_c5_join_leave_events.1 stC5 1 "3333" hfull,
    by decide, claim_c5_join_leave_events.2 stC5 2 "3333" (by decide)⟩

/-! ## Quality-controller hysteresis (C3) -/

/-- The current tier's target fps, `QUALITY_TIERS[idx].frameRate`. -/
def tierTarget (idx : Nat) : ℚ :=
  (QUALITY_TIERS.getD idx defaultTier).frameRate

theorem tierTarget_nonneg (idx : Nat) : 0 ≤ tierTarget idx := by
  rcases idx with _ | _ | _ | _ | _ | n <;>
    simp [tierTarget, QUALITY_TIERS, defaultTier, List.getD]

/-- One degrading sample (positive and strictly below 60% of target):
increment the degrade counter, reset the improve counter, then step down
when the counter reaches 3 and a lower tier exists. -/
theorem adapt_degrade (p : Nat) (q : QState) (f : ℚ) (hp : p ≠ 0)
    (h0 : 0 < f)
    (hlt : f < (QUALITY_TIERS.getD q.currentTierIndex defaultTier).frameRate * (3 / 5)) :
    adaptQuality p q f =
      if 3 ≤ q.degradeCount + 1 ∧ q.currentTierIndex < QUALITY_TIERS.length - 1 then
        ⟨q.currentTierIndex + 1, 0, 0⟩
      else ⟨q.currentTierIndex, q.degradeCount + 1, 0⟩ := by
  simp only [adaptQuality]
  rw [if_neg hp, if_pos (And.intro h0 hlt)]
  split
  · rw [if_neg (by rintro ⟨h8, -⟩; simp at h8)]
  · rw [if_neg (by rintro ⟨h8, -⟩; simp at h8)]

/-- A degrading sample that does not yet complete the 3-streak. -/
theorem adapt_degrade_no_step (p : Nat) (q : QState) (f : ℚ) (hp : p ≠ 0)
    (h0 : 0 < f)
    (hlt : f < (QUALITY_TIERS.getD q.currentTierIndex defaultTier).frameRate * (3 / 5))
    (hcnt : q.degradeCount + 1 < 3) :
    adaptQuality p q f = ⟨q.currentTierIndex, q.degradeCount + 1, 0⟩ := by
  rw [adapt_degrade p q f hp h0 hlt, if_neg]
  omega

/-- One improving sample (at or above 85% of target): increment the improve
counter, reset the degrade counter, then step up when the counter reaches 8
and a higher tier exists. -/
theorem adapt_improve (p : Nat) (q : QState) (f : ℚ) (hp : p ≠ 0)
    (hge : (QUALITY_TIERS.getD q.currentTierIndex defaultTier).frameRate * (17 / 20) ≤ f) :
    adaptQuality p q f =
      if 8 ≤ q.improveCount + 1 ∧ 0 < q.currentTierIndex then
        ⟨q.currentTierIndex - 1, 0, 0⟩
      else ⟨q.currentTierIndex, 0, q.improveCount + 1⟩ := by
  have htgt : 0 ≤ (QUALITY_TIERS.getD q.currentTierIndex defaultTier).frameRate :=
    tierTarget_nonneg q.currentTierIndex
  have hnd : ¬(0 < f ∧
      f < (QUALITY_TIERS.getD q.currentTierIndex defaultTier).frameRate * (3 / 5)) := by
    rintro ⟨-, hlt⟩
    nlinarith
  simp only [adaptQuality]
  rw [if_neg hp, if_neg hnd, if_pos hge]
  have hC2 : ¬(3 ≤ (⟨q.currentTierIndex, 0, q.improveCount + 1⟩ : QState).degradeCount ∧
      (⟨q.currentTierIndex, 0, q.improveCount + 1⟩ : QState).currentTierIndex <
        QUALITY_TIERS.length - 1) := by
    rintro ⟨h3, -⟩
    simp at h3
  rw [if_neg hC2]

/-- An improving sample that does not yet complete the 8-streak. -/
theorem adapt_improve_no_step (p : Nat) (q : QState) (f : ℚ) (hp : p ≠ 0)
    (hge : (QUALITY_TIERS.getD q.currentTierIndex defaultTier).frameRate * (17 / 20) ≤ f)
    (hcnt : q.improveCount + 1 < 8) :
    adaptQuality p q f = ⟨q.currentTierIndex, 0, q.improveCount + 1⟩ := by
  rw [adapt_improve p q f hp hge, if_neg]
  omega

/-- A sample that is neither degrading nor improving resets both counters
and leaves the tier alone, regardless of the counters' previous values. -/
theorem adapt_else (p : Nat) (q : QState) (f : ℚ) (hp : p ≠ 0)
    (hnd : ¬(0 < f ∧
      f < (QUALITY_TIERS.getD q.currentTierIndex defaultTier).frameRate * (3 / 5)))
    (hni : ¬((QUALITY_TIERS.getD q.currentTierIndex defaultTier).frameRate * (17 / 20) ≤ f)) :
    adaptQuality p q f = ⟨q.currentTierIndex, 0, 0⟩ := by
  simp only [adaptQuality]
  rw [if_neg hp, if_neg hnd, if_neg hni]
  rw [if_neg (by rintro ⟨h3, -⟩; simp at h3), if_neg (by rintro ⟨h8, -⟩; simp at h8)]

/-- A neutral sample (between 60% and 85% of target) resets both counters. -/
theorem adapt_neutral (p : Nat) (q : QState) (f : ℚ) (hp : p ≠ 0)
    (hge : (QUALITY_TIERS.getD q.currentTierIndex defaultTier).frameRate * (3 / 5) ≤ f)
    (hlt : f < (QUALITY_TIERS.getD q.currentTierIndex defaultTier).frameRate * (17 / 20)) :
    adaptQuality p q f = ⟨q.currentTierIndex, 0, 0⟩ :=
  adapt_else p q f hp (fun h => absurd h.2 (not_lt.mpr hge)) (not_le.mpr hlt)

/-- After any sample that changes the tier, both hysteresis counters are 0. -/
theorem adaptQuality_step_resets (p : Nat) (q : QState) (f : ℚ)
    (hne : (adaptQuality p q f).currentTierIndex ≠ q.currentTierIndex) :
    (adaptQuality p q f).degradeCount = 0 ∧ (adaptQuality p q f).improveCount = 0 := by
  by_cases hp : p = 0
  · simp [adaptQuality, hp] at hne
  · by_cases hc1 : 0 < f ∧
        f < (QUALITY_TIERS.getD q.currentTierIndex defaultTier).frameRate * (3 / 5)
    · rw [adapt_degrade p q f hp hc1.1 hc1.2] at hne ⊢
      by_cases hs1 : 3 ≤ q.degradeCount + 1 ∧
          q.currentTierIndex < QUALITY_TIERS.length - 1
      · rw [if_pos hs1]
        exact ⟨rfl, rfl⟩
      · rw [if_neg hs1] at hne
        exact absurd rfl hne
    · by_cases hc2 : (QUALITY_TIERS.getD q.currentTierIndex defaultTier).frameRate *
          (17 / 20) ≤ f
      · rw [adapt_improve p q f hp hc2] at hne ⊢
        by_cases hs2 : 8 ≤ q.improveCount + 1 ∧ 0 < q.currentTierIndex
        · rw [if_pos hs2]
          exact ⟨rfl, rfl⟩
        · rw [if_neg hs2] at hne
          exact absurd rfl hne
      · rw [adapt_else p q f hp hc1 hc2] at hne
        exact absurd rfl hne

/-- Three consecutive degrading samples from cleared counters step the tier
index up (toward lower quality) by exactly one, unless at the bottom tier,
where only the counter accumulates. -/
theorem degrade_streak (p idx : Nat) (f1 f2 f3 : ℚ) (hp : p ≠ 0)
    (hall : ∀ f ∈ [f1, f2, f3], 0 < f ∧ f < tierTarget idx * (3 / 5)) :
    runAdapt p ⟨idx, 0, 0⟩ [f1, f2, f3] =
      if idx < QUALITY_TIERS.length - 1 then ⟨idx + 1, 0, 0⟩ else ⟨idx, 3, 0⟩ := by
  obtain ⟨h01, hl1⟩ := hall f1 (by simp)
  obtain ⟨h02, hl2⟩ := hall f2 (by simp)
  obtain ⟨h03, hl3⟩ := hall f3 (by simp)
  simp only [runAdapt, List.foldl_cons, List.foldl_nil]
  rw [adapt_degrade_no_step p ⟨idx, 0, 0⟩ f1 hp h01 hl1 (by norm_num)]
  rw [adapt_degrade_no_step p ⟨idx, 1, 0⟩ f2 hp h02 hl2 (by norm_num)]
  rw [adapt_degrade p ⟨idx, 2, 0⟩ f3 hp h03 hl3]
  by_cases hl : idx < QUALITY_TIERS.length - 1
  · rw [if_pos (And.intro (by norm_num) hl), if_pos hl]
  · rw [if_neg (by rintro ⟨-, h⟩; exact hl h), if_neg hl]

/-- Eight consecutive improving samples from cleared counters step the tier
index down (toward higher quality) by exactly one, unless already at the top
tier, where only the counter accumulates. -/
theorem improve_streak (p idx : Nat) (f1 f2 f3 f4 f5 f6 f7 f8 : ℚ) (hp : p ≠ 0)
    (hall : ∀ f ∈ [f1, f2, f3, f4, f5, f6, f7, f8], tierTarget idx * (17 / 20) ≤ f) :
    runAdapt p ⟨idx, 0, 0⟩ [f1, f2, f3, f4, f5, f6, f7, f8] =
      if 0 < idx then ⟨idx - 1, 0, 0⟩ else ⟨idx, 0, 8⟩ := by
  simp only [runAdapt, List.foldl_cons, List.foldl_nil]
  rw [adapt_improve_no_step p ⟨idx, 0, 0⟩ f1 hp (hall f1 (by simp)) (by norm_num)]
  rw [adapt_improve_no_step p ⟨idx, 0, 1⟩ f2 hp (hall f2 (by simp)) (by norm_num)]
  rw [adapt_improve_no_step p ⟨idx, 0, 2⟩ f3 hp (hall f3 (by simp)) (by norm_num)]
  rw [adapt_improve_no_step p ⟨idx, 0, 3⟩ f4 hp (hall f4 (by simp)) (by norm_num)]
  rw [adapt_improve_no_step p ⟨idx, 0, 4⟩ f5 hp (hall f5 (by simp)) (by norm_num)]
  rw [adapt_improve_no_step p ⟨idx, 0, 5⟩ f6 hp (hall f6 (by simp)) (by norm_num)]
  rw [adapt_improve_no_step p ⟨idx, 0, 6⟩ f7 hp (hall f7 (by simp)) (by norm_num)]
  rw [adapt_improve p ⟨idx, 0, 7⟩ f8 hp (hall f8 (by simp))]
  by_cases h0 : 0 < idx
  · rw [if_pos (And.intro (by norm_num) h0), if_pos h0]
  · rw [if_neg (by rintro ⟨-, h⟩; exact h0 h), if_neg h0]

/-- **C3 (corrected)** (functional correctness): starting from both
hysteresis counters at 0, for every tier index: three consecutive fps
samples each *positive* and strictly below 60% of the current tier's target
increase the tier index by exactly 1 unless already at the lowest tier;
eight consecutive samples each at or above 85% of target decrease it by
exactly 1 unless already at the highest tier; any sample between 60%
(inclusive) and 85% (exclusive) of target resets both counters so no
partial streak survives; and after any tier step both counters are 0.
(The positivity proviso is forced: a sample of exactly 0 fps — strictly
below 60% of target — resets the streak instead of extending it, refuting
the original claim; see `claim_c3_counterexample`.) -/
theorem claim_c3_hysteresis_amended :
    (∀ (p idx : Nat) (f1 f2 f3 : ℚ), p ≠ 0 →
      (∀ f ∈ [f1, f2, f3], 0 < f ∧ f < tierTarget idx * (3 / 5)) →
      runAdapt p ⟨idx, 0, 0⟩ [f1, f2, f3] =
        if idx < QUALITY_TIERS.length - 1 then ⟨idx + 1, 0, 0⟩ else ⟨idx, 3, 0⟩) ∧
    (∀ (p idx : Nat) (f1 f2 f3 f4 f5 f6 f7 f8 : ℚ), p ≠ 0 →
      (∀ f ∈ [f1, f2, f3, f4, f5, f6, f7, f8], tierTarget idx * (17 / 20) ≤ f) →
      runAdapt p ⟨idx, 0, 0⟩ [f1, f2, f3, f4, f5, f6, f7, f8] =
        if 0 < idx then ⟨idx - 1, 0, 0⟩ else ⟨idx, 0, 8⟩) ∧
    (∀ (p : Nat) (q : QState) (f : ℚ), p ≠ 0 →
      tierTarget q.currentTierIndex * (3 / 5) ≤ f →
      f < tierTarget q.currentTierIndex * (17 / 20) →
      adaptQuality p q f = ⟨q.currentTierIndex, 0, 0⟩) ∧
    (∀ (p : Nat) (q : QState) (f : ℚ),
      (adaptQuality p q f).currentTierIndex ≠ q.currentTierIndex →
      (adaptQuality p q f).degradeCount = 0 ∧
        (adaptQuality p q f).improveCount = 0) :=
  ⟨degrade_streak, improve_streak,
    fun p q f hp hge hlt => adapt_neutral p q f hp hge hlt,
    adaptQuality_step_resets⟩

/-- Counterexample to C3 as stated: an fps sample of 0 is strictly below 60%
of the top tier's target (0 < 18), the top tier is not the lowest, and yet
three consecutive 0-samples leave the tier index at 0 (the claim demands it
become 1): the code's degrade branch requires `actualFps > 0`, so a 0-sample
falls into the neutral branch and resets the streak. -/
theorem claim_c3_counterexample :
    ((0 : ℚ) < tierTarget 0 * (3 / 5)) ∧
    0 < QUALITY_TIERS.length - 1 ∧
    runAdapt 1 ⟨0, 0, 0⟩ [0, 0, 0] = ⟨0, 0, 0⟩ := by
  refine ⟨?_, ?_, ?_⟩
  · norm_num [tierTarget, QUALITY_TIERS, defaultTier]
  · decide
  · norm_num [runAdapt, adaptQuality, QUALITY_TIERS, defaultTier]

/-- Witness for the amended C3: a 3-streak at 10 fps from the top tier steps
down to tier 1; an 8-streak at 30 fps from tier 1 steps back up to tier 0; a
neutral 20 fps sample wipes a partial degrade streak; and the step taken on
a completed degrade streak leaves both counters at 0. -/
theorem claim_c3_hysteresis_amended_witness :
    ((1 : Nat) ≠ 0 ∧ (∀ f ∈ [(10 : ℚ), 10, 10], 0 < f ∧ f < tierTarget 0 * (3 / 5)) ∧
      runAdapt 1 ⟨0, 0, 0⟩ [10, 10, 10] =
        if 0 < QUALITY_TIERS.length - 1 then ⟨0 + 1, 0, 0⟩ else ⟨0, 3, 0⟩) ∧
    ((∀ f ∈ [(30 : ℚ), 30, 30, 30, 30, 30, 30, 30], tierTarget 1 * (17 / 20) ≤ f) ∧
      runAdapt 1 ⟨1, 0, 0⟩ [30, 30, 30, 30, 30, 30, 30, 30] =
        if 0 < 1 then ⟨1 - 1, 0, 0⟩ else ⟨1, 0, 8⟩) ∧
    (tierTarget 0 * (3 / 5) ≤ 20 ∧ (20 : ℚ) < tierTarget 0 * (17 / 20) ∧
      adaptQuality 1 ⟨0, 2, 0⟩ 20 = ⟨0, 0, 0⟩) ∧
    ((adaptQuality 1 ⟨0, 2, 0⟩ 10).currentTierIndex ≠
        (⟨0, 2, 0⟩ : QState).currentTierIndex ∧
      (adaptQuality 1 ⟨0, 2, 0⟩ 10).degradeCount = 0 ∧
      (adaptQuality 1 ⟨0, 2, 0⟩ 10).improveCount = 0) :=
  ⟨⟨by decide,
      by norm_num [List.forall_mem_cons, tierTarget, QUALITY_TIERS, defaultTier],
      claim_c3_hysteresis_amended.1 1 0 10 10 10 (by decide)
        (by norm_num [List.forall_mem_cons, tierTarget, QUALITY_TIERS, defaultTier])⟩,
    ⟨by norm_num [List.forall_mem_cons, tierTarget, QUALITY_TIERS, defaultTier],
      claim_c3_hysteresis_amended.2.1 1 1 30 30 30 30 30 30 30 30 (by decide)
        (by norm_num [List.forall_mem_cons, tierTarget, QUALITY_TIERS, defaultTier])⟩,
    ⟨by norm_num [tierTarget, QUALITY_TIERS, defaultTier],
      by norm_num [tierTarget, QUALITY_TIERS, defaultTier],
      claim_c3_hysteresis_amended.2.2.1 1 ⟨0, 2, 0⟩ 20
        (by decide)
        (by norm_num [tierTarget, QUALITY_TIERS, defaultTier])
        (by norm_num [tierTarget, QUALITY_TIERS, defaultTier])⟩,
    ⟨by norm_num [adaptQuality, QUALITY_TIERS, defaultTier],
      claim_c3_hysteresis_amended.2.2.2 1 ⟨0, 2, 0⟩ 10
        (by norm_num [adaptQuality, QUALITY_TIERS, defaultTier])⟩⟩

/-! ## The fps signal of collectStats (C4) -/

/-- Combine a running minimum (`none` = Infinity) with the minimum of a
further batch. -/
def combineMin : Option ℚ → Option ℚ → Option ℚ
  | none, m => m
  | some a, none => some a
  | some a, some m => some (min a m)

/-- The positive outbound-video fps values of a flat report list. -/
def posVideoFps (l : List StatsReport) : List ℚ :=
  ((l.filter isOutboundVideo).map (fun r => r.framesPerSecond.getD 0)).filter
    (fun f => decide (0 < f))

theorem combineMin_step (acc : Option ℚ) (v : ℚ) (m : Option ℚ) :
    combineMin (combineMin acc (some v)) m =
      combineMin acc (some (m.elim v (min v))) := by
  cases acc <;> cases m <;> simp [combineMin, Option.elim, min_assoc]

/-- A fold of `minFpsStep` computes the minimum of the positive outbound
video fps values, merged with the starting accumulator. -/
theorem foldl_minFpsStep (l : List StatsReport) :
    ∀ acc : Option ℚ, l.foldl minFpsStep acc = combineMin acc (posVideoFps l).min? := by
  induction l with
  | nil => intro acc; cases acc <;> rfl
  | cons r t ih =>
      intro acc
      rw [List.foldl_cons]
      by_cases hv : isOutboundVideo r = true
      · by_cases h0 : (0 : ℚ) < r.framesPerSecond.getD 0
        · have hstep : minFpsStep acc r = combineMin acc (some (r.framesPerSecond.getD 0)) := by
            cases acc <;> simp [minFpsStep, hv, h0, combineMin]
          have hpos : posVideoFps (r :: t) = r.framesPerSecond.getD 0 :: posVideoFps t := by
            simp [posVideoFps, List.filter_cons, hv, h0]
          rw [hstep, ih, hpos, List.min?_cons, combineMin_step]
        · have hstep : minFpsStep acc r = acc := by
            simp [minFpsStep, hv, h0]
          have hpos : posVideoFps (r :: t) = posVideoFps t := by
            simp [posVideoFps, List.filter_cons, hv, h0]
          rw [hstep, ih, hpos]
      · have hstep : minFpsStep acc r = acc := by
          simp [minFpsStep, hv]
        have hpos : posVideoFps (r :: t) = posVideoFps t := by
          simp [posVideoFps, List.filter_cons, hv]
        rw [hstep, ih, hpos]

/-- `collectMinFps` over the per-peer report lists equals the fold over the
flattened report list. -/
theorem collectMinFps_eq_flatten (prs : List (List StatsReport)) :
    collectMinFps prs = prs.flatten.foldl minFpsStep none :=
  (List.foldl_flatten minFpsStep none prs).symm

/-- **C4 (corrected)** (functional correctness): on every stats tick the fps
value fed into the tier-adaptation decision is the minimum of the *positive*
fps values observed across the peer links' outbound video stats — a link
whose observed fps is 0 is excluded from the minimum rather than driving the
decision, and when no link reports a positive fps (e.g. a single peer at
0 fps) `adaptQuality` is not called at all. (The original claim — the
minimum over all observed fps values, 0 included — is refuted by
`claim_c4_counterexample`.) -/
theorem claim_c4_min_fps_amended :
    (∀ prs : List (List StatsReport),
      collectMinFps prs =
        ((outVideoFpsValues prs).filter (fun f => decide (0 < f))).min?) ∧
    (∀ (prs : List (List StatsReport)) (q : QState),
      collectMinFps prs = none → collectStatsQuality prs q = q) ∧
    (∀ (prs : List (List StatsReport)) (q : QState) (m : ℚ),
      prs ≠ [] → collectMinFps prs = some m →
      collectStatsQuality prs q = adaptQuality prs.length q m) := by
  refine ⟨?_, ?_, ?_⟩
  · intro prs
    rw [collectMinFps_eq_flatten, foldl_minFpsStep]
    rfl
  · intro prs q hnone
    unfold collectStatsQuality
    split
    · rfl
    · rw [hnone]
  · intro prs q m hne hsome
    unfold collectStatsQuality
    rw [if_neg (by simpa [List.length_eq_zero] using hne), hsome]

/-- A 0-fps outbound video report. -/
def repFps0 : StatsReport :=
  { type := "outbound-rtp", kind := "video", framesPerSecond := some 0,
    bytesSent := 0, timestamp := 0, frameWidth := none, frameHeight := none }

/-- A 30-fps outbound video report. -/
def repFps30 : StatsReport :=
  { type := "outbound-rtp", kind := "video", framesPerSecond := some 30,
    bytesSent := 0, timestamp := 0, frameWidth := none, frameHeight := none }

/-- Counterexample to C4 as stated: with one peer at 0 fps and one at
30 fps, the minimum over all observed fps values is 0, but the signal fed to
the adaptation is 30 — the struggling 0-fps peer is masked; and with a
single peer at 0 fps the controller is not invoked at all (the counters do
not even reset). -/
theorem claim_c4_counterexample :
    collectMinFps [[repFps0], [repFps30]] = some 30 ∧
    (outVideoFpsValues [[repFps0], [repFps30]]).min? = some 0 ∧
    collectMinFps [[repFps0]] = none ∧
    collectStatsQuality [[repFps0]] ⟨0, 2, 0⟩ = ⟨0, 2, 0⟩ := by
  refine ⟨?_, ?_, ?_, ?_⟩ <;>
    simp [collectMinFps, collectStatsQuality, minFpsStep, outVideoFpsValues,
      isOutboundVideo, repFps0, repFps30, List.min?]

/-- Witness for the amended C4: a single 30-fps peer produces the signal 30
(the minimum of the positive fps list), a single 0-fps peer produces no
adaptation call, and the 30-fps signal is handed to `adaptQuality`. -/
theorem claim_c4_min_fps_amended_witness :
    (collectMinFps [[repFps30]] =
      ((outVideoFpsValues [[repFps30]]).filter (fun f => decide (0 < f))).min?) ∧
    (collectMinFps [[repFps0]] = none ∧
      collectStatsQuality [[repFps0]] ⟨1, 1, 1⟩ = ⟨1, 1, 1⟩) ∧
    (([[repFps30]] : List (List StatsReport)) ≠ [] ∧
      collectMinFps [[repFps30]] = some 30 ∧
      collectStatsQuality [[repFps30]] ⟨0, 0, 0⟩ =
        adaptQuality ([[repFps30]] : List (List StatsReport)).length ⟨0, 0, 0⟩ 30) :=
  ⟨claim_c4_min_fps_amended.1 [[repFps30]],
    ⟨by simp [collectMinFps, minFpsStep, isOutboundVideo, repFps0],
      claim_c4_min_fps_amended.2.1 [[repFps0]] ⟨1, 1, 1⟩
        (by simp [collectMinFps, minFpsStep, isOutboundVideo, repFps0])⟩,
    ⟨by simp,
      by simp [collectMinFps, minFpsStep, isOutboundVideo, repFps30],
      claim_c4_min_fps_amended.2.2 [[repFps30]] ⟨0, 0, 0⟩ 30 (by simp)
        (by simp [collectMinFps, minFpsStep, isOutboundVideo, repFps30])⟩⟩

/-! ## Room-code extraction (C9) -/

/-- When the 4-digit pattern matches at a position, it cannot match at any
of the next three positions: each of those windows contains the non-digit
(or absent) character that made the lookahead succeed. -/
theorem fourDigitWindow_shift (a b c d : Char) (rest : List Char) (w : List Char)
    (h : fourDigitWindow (a :: b :: c :: d :: rest) = some w) :
    fourDigitWindow (b :: c :: d :: rest) = none ∧
    fourDigitWindow (c :: d :: rest) = none ∧
    fourDigitWindow (d :: rest) = none := by
  simp only [fourDigitWindow] at h
  split at h
  case isFalse => exact Option.noConfusion h
  case isTrue hcond =>
    cases rest with
    | nil => exact ⟨rfl, rfl, rfl⟩
    | cons e rest2 =>
        have he : e.isDigit = false := by
          simp only [Bool.and_eq_true, Bool.not_eq_true'] at hcond
          exact hcond.2
        refine ⟨?_, ?_, ?_⟩
        · simp [fourDigitWindow, he]
        · cases rest2 with
          | nil => rfl
          | cons g r3 => simp [fourDigitWindow, he]
        · cases rest2 with
          | nil => rfl
          | cons g r3 =>
              cases r3 with
              | nil => rfl
              | cons g2 r4 => simp [fourDigitWindow, he]

/-- The global-matching scan, which skips 4 characters after each match,
finds exactly the candidate windows at every position: the three skipped
positions can hold no candidate. -/
theorem regexGlobalMatches_eq_spec :
    ∀ (n : Nat) (s : List Char), s.length ≤ n →
      regexGlobalMatches s = specAllWindows s := by
  intro n
  induction n with
  | zero =>
      intro s hs
      have hnil : s = [] := List.eq_nil_of_length_eq_zero (by omega)
      subst hnil
      simp [regexGlobalMatches, specAllWindows]
  | succ m ih =>
      intro s hs
      cases s with
      | nil => simp [regexGlobalMatches, specAllWindows]
      | cons x rest =>
          cases hw : fourDigitWindow (x :: rest) with
          | none =>
              simp only [regexGlobalMatches, specAllWindows, hw, List.nil_append]
              exact ih rest (by simpa using Nat.le_of_succ_le_succ hs)
          | some w =>
              match rest, hw with
              | b :: c :: d :: rest', hw =>
                  obtain ⟨h1, h2, h3⟩ := fourDigitWindow_shift x b c d rest' w hw
                  simp only [regexGlobalMatches, specAllWindows, hw, h1, h2, h3,
                    List.drop_succ_cons, List.drop_zero, List.nil_append,
                    List.cons_append]
                  have hlen : rest'.length ≤ m := by
                    simp only [List.length_cons] at hs
                    omega
                  rw [ih rest' hlen]
              | [], hw => exact absurd hw (by simp [fourDigitWindow])
              | [b], hw => exact absurd hw (by simp [fourDigitWindow])
              | [b, c], hw => exact absurd hw (by simp [fourDigitWindow])

/-- **C9** (functional correctness): for every input string,
`extractRoomId` returns the last run of exactly 4 digits that is not
immediately followed by a further digit (the candidate at the largest
starting position in the trimmed input), and returns no code when the
trimmed input contains no such run. -/
theorem claim_c9_extract_last_run (s : List Char) :
    extractRoomId s = specLastRun s := by
  unfold extractRoomId specLastRun
  by_cases he : (jsTrim s).isEmpty
  · rw [if_pos he]
    have hnil : jsTrim s = [] := by
      cases h : jsTrim s with
      | nil => rfl
      | cons a t => rw [h] at he; exact absurd he (by simp)
    rw [hnil]
    rfl
  · rw [if_neg he]
    rw [regexGlobalMatches_eq_spec (jsTrim s).length (jsTrim s) le_rfl]

end AlphyChat
